import Mathlib

/-!
Verification development for the fide-cli evidence-anchored identity
resolution and evaluation-prompt synthesis engine.

The TypeScript sources are shallowly embedded: statements are records of
strings, JavaScript arrays become lists, JavaScript `Map` objects become
association lists with `Map.set`/`Map.get` semantics, and the fallible
external content-addressing collaborators (`calculateStatementFideId`,
`calculateFideId` from the out-of-scope `@chris-test/fcp` package) are
passed in as function parameters (`Option`-valued where the original can
throw).  JavaScript string primitives (`split`, `startsWith`, `includes`,
`localeCompare` on the ASCII identifiers used throughout) are modelled by
executable functions over the character data of Lean strings.
-/

namespace FideCli

/-! ## String primitives (models of the JavaScript string operations) -/

/-- Model of `a.split("|")` on character lists: split at every pipe. -/
def splitPipeChars : List Char → List (List Char)
  | [] => [[]]
  | c :: cs =>
    let r := splitPipeChars cs
    if c = '|' then [] :: r
    else
      match r with
      | [] => [[c]]
      | h :: t => (c :: h) :: t

/-- Model of `s.split("|")` for strings. -/
def jsSplitPipe (s : String) : List String :=
  (splitPipeChars s.data).map String.mk

/-- Model of `s.startsWith(p)` on character lists. -/
def startsWithChars : List Char → List Char → Bool
  | [], _ => true
  | _ :: _, [] => false
  | a :: as, b :: bs => a == b && startsWithChars as bs

/-- Model of `s.startsWith(p)` for strings (`p` first, then `s`). -/
def startsWithStr (p s : String) : Bool :=
  startsWithChars p.data s.data

/-- Model of `s.includes(pat)`: `pat` occurs as a contiguous substring of `s`. -/
def strIncludes (s pat : String) : Bool :=
  decide (pat.data <:+: s.data)

/-- Model of `a.localeCompare(b)` for the ASCII identifiers used by the
CLI: lexicographic comparison of the character data, returning a negative,
zero or positive integer. -/
def localeCmp (a b : String) : Int :=
  if a.data < b.data then -1 else if b.data < a.data then 1 else 0

/-- Insert an element into a sorted list, after every element that
compares less-or-equal to it (this preserves the relative order of
elements the comparator considers equal). -/
def insertIntoSorted {α : Type} (le : α → α → Bool) (a : α) : List α → List α
  | [] => [a]
  | b :: bs => if le b a then b :: insertIntoSorted le a bs else a :: b :: bs

/-- Model of `Array.prototype.sort` with a consistent comparator: a stable
insertion sort.  JavaScript's sort is required to be stable, and for a
total-preorder comparator the stable sorted permutation is unique, so any
conforming engine produces this list. -/
def stableSortBy {α : Type} (le : α → α → Bool) (l : List α) : List α :=
  l.foldl (fun acc a => insertIntoSorted le a acc) []

/-! ## Data model (shared.ts) -/

/-- Embedding of the `FideIdStatement` record from `shared.ts`. -/
structure FideIdStatement where
  statementFideId : String
  subjectFideId : String
  subjectRawIdentifier : String
  predicateFideId : String
  predicateRawIdentifier : String
  objectFideId : String
  objectRawIdentifier : String
deriving DecidableEq, Repr

/-- Constant `OWL_SAME_AS_IRI` from `shared.ts`. -/
def OWL_SAME_AS_IRI : String := "https://www.w3.org/2002/07/owl#sameAs"

/-- Modelled from the spec: the content-addressing collaborator
`buildStatementRawIdentifier` lives in the external `@chris-test/fcp`
package, which is not part of this repository.  The spec describes its
output as the canonical pipe-joined triple "A|B|C" of the subject,
predicate and object identifiers. -/
def buildStatementRawIdentifier (s p o : String) : String :=
  s ++ "|" ++ p ++ "|" ++ o

/-- Embedding of `matchesStatementReference` from `shared.ts`: a candidate
references the target either through the target's own statement id (as the
candidate's subject id or subject raw value) or through the pipe-joined raw
triple of the target. -/
def matchesStatementReference (candidate target : FideIdStatement) : Bool :=
  candidate.subjectFideId == target.statementFideId
  || candidate.subjectRawIdentifier == target.statementFideId
  || candidate.subjectRawIdentifier ==
      buildStatementRawIdentifier target.subjectFideId target.predicateFideId target.objectFideId

/-! ## Predicate IRI constants from the prompt-atomic command module -/

/-- Constant `SCHEMA_VALID_FROM_IRI`. -/
def SCHEMA_VALID_FROM_IRI : String := "https://schema.org/validFrom"

/-- Constant `SCHEMA_VALID_THROUGH_IRI`. -/
def SCHEMA_VALID_THROUGH_IRI : String := "https://schema.org/validThrough"

/-- Constant `PROV_HAD_PRIMARY_SOURCE_IRI`. -/
def PROV_HAD_PRIMARY_SOURCE_IRI : String := "https://www.w3.org/ns/prov#hadPrimarySource"

/-- Constant `SCHEMA_ADDITIONAL_PROPERTY_IRI`. -/
def SCHEMA_ADDITIONAL_PROPERTY_IRI : String := "https://schema.org/additionalProperty"

/-- Constant `OWL_DIFFERENT_FROM_IRI`. -/
def OWL_DIFFERENT_FROM_IRI : String := "https://www.w3.org/2002/07/owl#differentFrom"

/-- Constant `SCHEMA_NAME_IRI`. -/
def SCHEMA_NAME_IRI : String := "https://schema.org/name"

/-- The `PERSON_AFFILIATION_PREDICATES` set, modelled as a list with
membership tested by `List.contains`. -/
def PERSON_AFFILIATION_PREDICATES : List String :=
  ["https://schema.org/worksFor",
   "https://schema.org/memberOf",
   "https://schema.org/affiliation"]

/-! ## JavaScript `Map` model

A `Map<string, A>` is an association list.  `Map.set` updates the value in
place when the key is present and appends a fresh entry otherwise, which
reproduces both the lookup semantics and the iteration order
(first-insertion order of keys) of the original. -/

/-- Model of `Map.set`. -/
def jsMapSet {α : Type} (m : List (String × α)) (k : String) (v : α) :
    List (String × α) :=
  if m.any (fun e => e.1 == k) then
    m.map (fun e => if e.1 == k then (k, v) else e)
  else
    m ++ [(k, v)]

/-- Model of `Map.get`. -/
def jsMapGet {α : Type} (m : List (String × α)) (k : String) : Option α :=
  (m.find? (fun e => e.1 == k)).map (fun e => e.2)

/-! ## Evidence closure builder (`buildPersonPromptContextStatements`)

The eight evidence categories are factored into named definitions whose
bodies are the literal filters of the source; the builder itself
deduplicates their concatenation through the `Map` keyed by
`statementFideId`, exactly as the source does. -/

/-- The `validTemporal` filter: validFrom/validThrough statements
referencing the target. -/
def validTemporalOf (target : FideIdStatement) (allStatements : List FideIdStatement) :
    List FideIdStatement :=
  allStatements.filter (fun statement =>
    (statement.predicateRawIdentifier == SCHEMA_VALID_FROM_IRI
      || statement.predicateRawIdentifier == SCHEMA_VALID_THROUGH_IRI)
    && matchesStatementReference statement target)

/-- The `citations` filter: hadPrimarySource statements whose subject
references a validTemporal result (by statement id or raw triple) or the
target itself. -/
def citationsOf (target : FideIdStatement) (allStatements : List FideIdStatement) :
    List FideIdStatement :=
  let targetRaw := buildStatementRawIdentifier target.subjectFideId target.predicateFideId
    target.objectFideId
  let validTemporal := validTemporalOf target allStatements
  let validTemporalSet := validTemporal.map (fun statement => statement.statementFideId)
  let validTemporalRawSet := validTemporal.map (fun statement =>
    buildStatementRawIdentifier statement.subjectFideId statement.predicateFideId
      statement.objectFideId)
  allStatements.filter (fun statement =>
    statement.predicateRawIdentifier == PROV_HAD_PRIMARY_SOURCE_IRI
    && (validTemporalSet.contains statement.subjectFideId
      || validTemporalSet.contains statement.subjectRawIdentifier
      || validTemporalRawSet.contains statement.subjectRawIdentifier
      || statement.subjectFideId == target.statementFideId
      || statement.subjectRawIdentifier == target.statementFideId
      || statement.subjectRawIdentifier == targetRaw))

/-- The `names` filter: schema:name statements on the target's endpoints. -/
def namesOf (target : FideIdStatement) (allStatements : List FideIdStatement) :
    List FideIdStatement :=
  allStatements.filter (fun statement =>
    statement.predicateRawIdentifier == SCHEMA_NAME_IRI
    && (statement.subjectFideId == target.subjectFideId
      || statement.subjectFideId == target.objectFideId))

/-- The `affiliations` filter: affiliation-family statements on the
target's endpoints. -/
def affiliationsOf (target : FideIdStatement) (allStatements : List FideIdStatement) :
    List FideIdStatement :=
  allStatements.filter (fun statement =>
    PERSON_AFFILIATION_PREDICATES.contains statement.predicateRawIdentifier
    && (statement.subjectFideId == target.subjectFideId
      || statement.subjectFideId == target.objectFideId))

/-- The `contradictions` filter: owl:differentFrom statements linking the
target's two endpoints in either direction. -/
def contradictionsOf (target : FideIdStatement) (allStatements : List FideIdStatement) :
    List FideIdStatement :=
  allStatements.filter (fun statement =>
    statement.predicateRawIdentifier == OWL_DIFFERENT_FROM_IRI
    && ((statement.subjectFideId == target.subjectFideId
        && statement.objectFideId == target.objectFideId)
      || (statement.subjectFideId == target.objectFideId
        && statement.objectFideId == target.subjectFideId)))

/-- The `reportStatements` filter: statements whose subject equals a
citation's object (by id or raw value). -/
def reportStatementsOf (target : FideIdStatement) (allStatements : List FideIdStatement) :
    List FideIdStatement :=
  let citations := citationsOf target allStatements
  let citationObjects := citations.map (fun statement =>
    (statement.objectFideId, statement.objectRawIdentifier))
  allStatements.filter (fun statement =>
    citationObjects.any (fun report =>
      statement.subjectFideId == report.1 || statement.subjectRawIdentifier == report.2))

/-- The `propertyNodeStatements` filter: statements whose subject equals
the object of a report-body additionalProperty statement. -/
def propertyNodeStatementsOf (target : FideIdStatement) (allStatements : List FideIdStatement) :
    List FideIdStatement :=
  let reportStatements := reportStatementsOf target allStatements
  let propertyNodes := (reportStatements.filter (fun statement =>
    statement.predicateRawIdentifier == SCHEMA_ADDITIONAL_PROPERTY_IRI)).map
      (fun statement => (statement.objectFideId, statement.objectRawIdentifier))
  allStatements.filter (fun statement =>
    propertyNodes.any (fun node =>
      statement.subjectFideId == node.1 || statement.subjectRawIdentifier == node.2))

/-- Fold of `selected.set(statement.statementFideId, statement)` over a
batch of statements, as in the source's `for` loops. -/
def insertStatements (m : List (String × FideIdStatement)) (l : List FideIdStatement) :
    List (String × FideIdStatement) :=
  l.foldl (fun m statement => jsMapSet m statement.statementFideId statement) m

/-- Embedding of `buildPersonPromptContextStatements`: the evidence closure
around one target statement, deduplicated by statement id through the
`selected` map, returned as `[...selected.values()]`. -/
def buildPersonPromptContextStatements (target : FideIdStatement)
    (allStatements : List FideIdStatement) : List FideIdStatement :=
  let selected := insertStatements []
    (target :: (validTemporalOf target allStatements ++ citationsOf target allStatements
      ++ namesOf target allStatements ++ affiliationsOf target allStatements
      ++ contradictionsOf target allStatements))
  let selected := insertStatements selected (reportStatementsOf target allStatements)
  let selected := insertStatements selected (propertyNodeStatementsOf target allStatements)
  selected.map (fun e => e.2)

/-- The claimed closure as a plain union (before deduplication): the target
plus all eight hop categories. -/
def closureSpec (target : FideIdStatement) (allStatements : List FideIdStatement) :
    List FideIdStatement :=
  target :: (validTemporalOf target allStatements ++ citationsOf target allStatements
    ++ namesOf target allStatements ++ affiliationsOf target allStatements
    ++ contradictionsOf target allStatements ++ reportStatementsOf target allStatements
    ++ propertyNodeStatementsOf target allStatements)

/-! ## Consideration router (the `runPromptAtomic` per-consideration loop)

The per-consideration body of `runPromptAtomic` is pure except for prompt
rendering and file writes; it is embedded as `processConsideration`, which
returns the control-flow outcome the loop produces for one consideration:
a fatal error (`console.error` + exit code 1, only reachable when the
consideration was explicitly requested), a skipped-with-reason summary
entry, or the generated evidence units (pool, selected evidence and base
supporting statements) together with their summary entry. -/

/-- The closed five-value consideration set. -/
inductive AtomicConsideration where
  | citation_chain
  | explicit_contradiction
  | name_alignment
  | affiliation_overlap
  | valid_from_timestamp
deriving DecidableEq, Repr

/-- String name of a consideration, as interpolated into messages. -/
def considerationName : AtomicConsideration → String
  | .citation_chain => "citation_chain"
  | .explicit_contradiction => "explicit_contradiction"
  | .name_alignment => "name_alignment"
  | .affiliation_overlap => "affiliation_overlap"
  | .valid_from_timestamp => "valid_from_timestamp"

/-- Embedding of `pickAtomicEvidencePool`. -/
def pickAtomicEvidencePool (consideration : AtomicConsideration)
    (target : FideIdStatement) (contextStatements : List FideIdStatement) :
    List FideIdStatement :=
  match consideration with
  | .citation_chain =>
    contextStatements.filter (fun statement =>
      statement.predicateRawIdentifier == PROV_HAD_PRIMARY_SOURCE_IRI)
  | .explicit_contradiction =>
    contextStatements.filter (fun statement =>
      statement.predicateRawIdentifier == OWL_DIFFERENT_FROM_IRI)
  | .name_alignment =>
    contextStatements.filter (fun statement =>
      statement.predicateRawIdentifier == SCHEMA_NAME_IRI)
  | .affiliation_overlap =>
    contextStatements.filter (fun statement =>
      PERSON_AFFILIATION_PREDICATES.contains statement.predicateRawIdentifier)
  | .valid_from_timestamp =>
    contextStatements.filter (fun statement =>
      statement.predicateRawIdentifier == SCHEMA_VALID_FROM_IRI
      && matchesStatementReference statement target)

/-- Embedding of `collectPrimarySourceLinksForStatement`. -/
def collectPrimarySourceLinksForStatement (target : FideIdStatement)
    (contextStatements : List FideIdStatement) : List FideIdStatement :=
  let raw := buildStatementRawIdentifier target.subjectFideId target.predicateFideId
    target.objectFideId
  contextStatements.filter (fun statement =>
    statement.predicateRawIdentifier == PROV_HAD_PRIMARY_SOURCE_IRI
    && (statement.subjectFideId == target.statementFideId
      || statement.subjectRawIdentifier == target.statementFideId
      || statement.subjectRawIdentifier == raw))

/-- Embedding of `isReportBackedPrimarySource`: a hadPrimarySource
statement whose object raw value is an http/https URL containing the fixed
report-path marker. -/
def isReportBackedPrimarySource (statement : FideIdStatement) : Bool :=
  if statement.predicateRawIdentifier != PROV_HAD_PRIMARY_SOURCE_IRI then false
  else if !(startsWithStr "http://" statement.objectRawIdentifier
      || startsWithStr "https://" statement.objectRawIdentifier) then false
  else strIncludes statement.objectRawIdentifier "/evidence/reports/"

/-- MAX_SAFE_INTEGER, the sentinel JavaScript uses for missing or
unparseable numeric keys in the two comparators. -/
def MAX_SAFE_INTEGER : Int := 9007199254740991

/-- Embedding of `pickAtomicRequiredAnchor`.  `dateParse` stands for the
external `Date.parse` builtin (`none` models `NaN`).  When the
consideration is citation_chain this function would rank the related
validFrom statements by parsed object date; `runPromptAtomic` only ever
calls it for the other four considerations, so only the final
subject-equality lookup is reachable there. -/
def pickAtomicRequiredAnchor (dateParse : String → Option Int)
    (consideration : AtomicConsideration) (target evidence : FideIdStatement)
    (contextStatements : List FideIdStatement) : List FideIdStatement :=
  let fallback :=
    match contextStatements.find? (fun statement =>
      statement.statementFideId == evidence.subjectFideId) with
    | some anchor => [anchor]
    | none => []
  match consideration with
  | .citation_chain =>
    match contextStatements.find? (fun statement =>
      statement.statementFideId == evidence.subjectFideId
      && statement.predicateRawIdentifier == SCHEMA_VALID_FROM_IRI) with
    | some directValidFrom => [directValidFrom]
    | none =>
      let relatedValidFrom :=
        stableSortBy (fun a b =>
            let av := (dateParse a.objectRawIdentifier).getD MAX_SAFE_INTEGER
            let bv := (dateParse b.objectRawIdentifier).getD MAX_SAFE_INTEGER
            decide ((if av ≠ bv then av - bv
              else localeCmp a.statementFideId b.statementFideId) ≤ 0))
          (contextStatements.filter (fun statement =>
            statement.predicateRawIdentifier == SCHEMA_VALID_FROM_IRI
            && matchesStatementReference statement target))
      match relatedValidFrom with
      | first :: _ => [first]
      | [] => fallback
  | _ => fallback

/-- The per-consideration summary entry accumulated by `runPromptAtomic`. -/
structure ConsiderationSummary where
  consideration : AtomicConsideration
  evidencePoolCount : Nat
  generatedCount : Nat
  skippedReason : Option String
deriving DecidableEq, Repr

/-- Control-flow outcome of the per-consideration loop body. -/
inductive ConsiderationOutcome where
  | fatal (message : String)
  | skipped (summary : ConsiderationSummary)
  | generated (evidencePool selectedEvidence baseSupportingStatements : List FideIdStatement)
      (summary : ConsiderationSummary)
deriving DecidableEq, Repr

/-- The sort `runPromptAtomic` applies to the citation_chain anchor
candidates: `.sort((a, b) => a.statementFideId.localeCompare(b.statementFideId))`. -/
def sortByStatementFideId (l : List FideIdStatement) : List FideIdStatement :=
  stableSortBy (fun a b => decide (localeCmp a.statementFideId b.statementFideId ≤ 0)) l

/-- The anchor candidate list for citation_chain: closure validFrom
statements referencing the target, sorted by statement id. -/
def citationChainAnchorCandidates (target : FideIdStatement)
    (contextStatements : List FideIdStatement) : List FideIdStatement :=
  sortByStatementFideId (contextStatements.filter (fun statement =>
    statement.predicateRawIdentifier == SCHEMA_VALID_FROM_IRI
    && matchesStatementReference statement target))

/-- The evidence-selection tail of the loop body: resolve an explicit
evidence statement id against the pool (failing when absent), or select
every pool member. -/
def finishSelection (explicitConsideration : Bool)
    (explicitEvidenceStatementId : Option String)
    (currentConsideration : AtomicConsideration)
    (evidencePool baseSupportingStatements : List FideIdStatement) :
    ConsiderationOutcome :=
  let selection : Option (List FideIdStatement) :=
    match explicitEvidenceStatementId with
    | some id =>
      match evidencePool.find? (fun statement => statement.statementFideId == id) with
      | none => none
      | some matched => some [matched]
    | none => some evidencePool
  match selection with
  | none =>
    .fatal ("Evidence statement not found in pool for consideration "
      ++ considerationName currentConsideration ++ ": "
      ++ explicitEvidenceStatementId.getD "")
  | some selectedEvidence =>
    if selectedEvidence.isEmpty then
      if explicitConsideration then
        .fatal ("No evidence statements selected for consideration: "
          ++ considerationName currentConsideration)
      else
        .skipped ⟨currentConsideration, evidencePool.length, 0,
          some "No evidence statements selected."⟩
    else
      .generated evidencePool selectedEvidence baseSupportingStatements
        ⟨currentConsideration, evidencePool.length, selectedEvidence.length, none⟩

/-- Embedding of the per-consideration body of `runPromptAtomic`:
`explicitConsideration` records whether the caller requested exactly this
consideration (in which case an empty pool is fatal rather than skipped). -/
def processConsideration (explicitConsideration : Bool)
    (explicitEvidenceStatementId : Option String)
    (target : FideIdStatement) (contextStatements : List FideIdStatement)
    (currentConsideration : AtomicConsideration) : ConsiderationOutcome :=
  let evidencePool := pickAtomicEvidencePool currentConsideration target contextStatements
  match currentConsideration with
  | .citation_chain =>
    match citationChainAnchorCandidates target contextStatements with
    | [] =>
      if explicitConsideration then
        .fatal "No anchor validFrom statement found for target owl:sameAs statement."
      else
        .skipped ⟨currentConsideration, 0, 0, some "No anchor validFrom statement found."⟩
    | anchorValidity :: _ =>
      let primarySourceForAnchorValidity :=
        (collectPrimarySourceLinksForStatement anchorValidity contextStatements).filter
          isReportBackedPrimarySource
      if primarySourceForAnchorValidity.isEmpty then
        if explicitConsideration then
          .fatal "No primary-source evidence statements found for the anchor validFrom statement."
        else
          .skipped ⟨currentConsideration, 0, 0,
            some "No primary-source evidence statements found for anchor validFrom statement."⟩
      else
        finishSelection explicitConsideration explicitEvidenceStatementId
          currentConsideration primarySourceForAnchorValidity [anchorValidity]
  | _ =>
    if evidencePool.isEmpty then
      if explicitConsideration then
        .fatal ("No evidence statements available for consideration: "
          ++ considerationName currentConsideration)
      else
        .skipped ⟨currentConsideration, 0, 0, some "No evidence statements available."⟩
    else
      finishSelection explicitConsideration explicitEvidenceStatementId
        currentConsideration evidencePool []

/-! ## Primary identity resolver (`findPrimaryFideId` in smoke-local.ts)

The external content-addressing collaborators are parameters:
`calcStatementFideId` models `calculateStatementFideId` (`none` models a
thrown exception, which the source catches and skips), and `calcFideId`
models `calculateFideId`. -/

/-- Embedding of the `ScenarioStatement` fixture record (the fields the
resolver reads; optional fields may be absent in the fixture JSON). -/
structure ScenarioStatement where
  statement_fide_id : Option String
  first_created_at : Option Int
  subject_type : String
  subject_raw_identifier : String
  predicate_raw_identifier : String
  object_type : String
  object_raw_identifier : String
deriving DecidableEq, Repr

/-- Embedding of the `FixtureConfig` fields the resolver reads. -/
structure FixtureConfig where
  entityType : String
deriving DecidableEq, Repr

/-- Embedding of `PrimaryFideIdResult`. -/
structure PrimaryFideIdResult where
  primaryFideId : String
  anchorSameAsStatementRawIdentifier : String
  anchorValidFromStatementFideId : Option String
  anchorValidFromFirstSeenAt : Option Int
deriving DecidableEq, Repr

/-- One entry of the resolver's `validFromCandidates` array. -/
structure ValidFromCandidate where
  statementFideId : Option String
  firstSeenAt : Option Int
  subjectRawIdentifier : String
deriving DecidableEq, Repr

/-- The focal same-as statements: every owl:sameAs statement of the
configured entity type whose subject or object raw value is the focal
identifier. -/
def owlSameAsStatementsOf (config : FixtureConfig) (statements : List ScenarioStatement)
    (focalIdentifier : String) : List ScenarioStatement :=
  statements.filter (fun row =>
    row.predicate_raw_identifier == "https://www.w3.org/2002/07/owl#sameAs"
    && row.subject_type == config.entityType
    && (row.subject_raw_identifier == focalIdentifier
      || row.object_raw_identifier == focalIdentifier))

/-- The claim-id set: the recorded statement ids of the focal same-as
statements (rows without a recorded id contribute nothing). -/
def sameAsStatementIdSetOf (config : FixtureConfig) (statements : List ScenarioStatement)
    (focalIdentifier : String) : List String :=
  (owlSameAsStatementsOf config statements focalIdentifier).filterMap
    (fun row => row.statement_fide_id)

/-- One step of the resolver's candidate scan: a validFrom
statement-about-a-statement survives when its subject raw value splits on
"|" into exactly three components with the did:fide:0x prefix and the
re-derived statement id is a member of the claim-id set.  Any other row
(including one whose re-derivation throws, modelled by
`calcStatementFideId` returning `none`) is silently skipped. -/
def validFromCandidateOfRow (calcStatementFideId : String → String → String → Option String)
    (sameAsStatementIdSet : List String) (row : ScenarioStatement) :
    Option ValidFromCandidate :=
  if row.predicate_raw_identifier != "https://schema.org/validFrom" then none
  else if row.subject_type != "Statement" then none
  else
    let parts := jsSplitPipe row.subject_raw_identifier
    if parts.length ≠ 3 then none
    else if !(parts.all (fun part => startsWithStr "did:fide:0x" part)) then none
    else
      match parts with
      | [p0, p1, p2] =>
        match calcStatementFideId p0 p1 p2 with
        | none => none
        | some targetStatementFideId =>
          if sameAsStatementIdSet.contains targetStatementFideId then
            some ⟨row.statement_fide_id, row.first_created_at, row.subject_raw_identifier⟩
          else none
      | _ => none

/-- The resolver's surviving candidate list. -/
def validFromCandidatesOf (calcStatementFideId : String → String → String → Option String)
    (config : FixtureConfig) (statements : List ScenarioStatement)
    (focalIdentifier : String) : List ValidFromCandidate :=
  statements.filterMap
    (validFromCandidateOfRow calcStatementFideId
      (sameAsStatementIdSetOf config statements focalIdentifier))

/-- The resolver's three-key comparator: first-seen timestamp with the
MAX_SAFE_INTEGER sentinel for missing values, then recorded statement id
with the "~" sentinel for missing values (localeCompare), then subject raw
value (localeCompare). -/
def candidateCmp (a b : ValidFromCandidate) : Int :=
  let ta := a.firstSeenAt.getD MAX_SAFE_INTEGER
  let tb := b.firstSeenAt.getD MAX_SAFE_INTEGER
  if ta ≠ tb then ta - tb
  else
    let ia := a.statementFideId.getD "~"
    let ib := b.statementFideId.getD "~"
    if ia ≠ ib then localeCmp ia ib
    else localeCmp a.subjectRawIdentifier b.subjectRawIdentifier

/-- Boolean order corresponding to `candidateCmp`, used for the stable
sort that models `Array.prototype.sort`. -/
def candidateLe (a b : ValidFromCandidate) : Bool :=
  decide (candidateCmp a b ≤ 0)

/-- Embedding of `findPrimaryFideId`: collect the claim-id set, scan for
surviving validFrom candidates, rank them with `candidateLe`, and anchor
the primary id to the winner's raw value; no candidate means unresolved
(`none`), never an error. -/
def findPrimaryFideId (calcStatementFideId : String → String → String → Option String)
    (calcFideId : String → String → String → String)
    (config : FixtureConfig) (statements : List ScenarioStatement)
    (focalIdentifier : String) : Option PrimaryFideIdResult :=
  let validFromCandidates :=
    validFromCandidatesOf calcStatementFideId config statements focalIdentifier
  match stableSortBy candidateLe validFromCandidates with
  | [] => none
  | winner :: _ =>
    some { primaryFideId := calcFideId config.entityType "Statement" winner.subjectRawIdentifier
           anchorSameAsStatementRawIdentifier := winner.subjectRawIdentifier
           anchorValidFromStatementFideId := winner.statementFideId
           anchorValidFromFirstSeenAt := winner.firstSeenAt }

/-! ## Vocabulary term resolver (`loadVocabularyIndex`)

Vocabulary snapshots arrive as parsed JSON documents; reading and parsing
are I/O, so the embedding takes the already-parsed documents
(`none` models a file whose read or parse failed, which the source skips
with `continue`). -/

/-- A parsed JSON value, restricted to what `JSON.parse` can produce. -/
inductive Json where
  | null
  | bool (b : Bool)
  | num (n : Int)
  | str (s : String)
  | arr (items : List Json)
  | obj (fields : List (String × Json))

/-- Property access `record[key]` on a parsed JSON object: an absent
property reads as `undefined`, which behaves like `null` in every check the
source performs. -/
def recordGet (fields : List (String × Json)) (key : String) : Json :=
  ((fields.find? (fun f => f.1 == key)).map (fun f => f.2)).getD Json.null

mutual

/-- Embedding of `getJsonLdText`: a falsy value (null, empty string, zero,
false) yields nothing; a non-empty string is returned as is; an array
yields its first truthy extraction; an object yields its string-typed
`@value` or else its string-typed `@id`. -/
def getJsonLdText : Json → Option String
  | .null => none
  | .bool _ => none
  | .num _ => none
  | .str s => if s = "" then none else some s
  | .arr items => getJsonLdTextFromList items
  | .obj fields =>
    match recordGet fields "@value" with
    | .str s => some s
    | _ =>
      match recordGet fields "@id" with
      | .str s => some s
      | _ => none

/-- Array traversal of `getJsonLdText`: the loop keeps going past falsy
extractions (including the empty string an object's `@value` can yield). -/
def getJsonLdTextFromList : List Json → Option String
  | [] => none
  | item :: rest =>
    match getJsonLdText item with
    | some s => if s = "" then getJsonLdTextFromList rest else some s
    | none => getJsonLdTextFromList rest

end

mutual

/-- Embedding of `getJsonLdIds`: all string-typed `@id` properties found in
a value or (recursively) the elements of an array of values. -/
def getJsonLdIds : Json → List String
  | .null => []
  | .bool _ => []
  | .num _ => []
  | .str _ => []
  | .arr items => getJsonLdIdsFromList items
  | .obj fields =>
    match recordGet fields "@id" with
    | .str s => [s]
    | _ => []

/-- Array traversal of `getJsonLdIds` (`flatMap`). -/
def getJsonLdIdsFromList : List Json → List String
  | [] => []
  | item :: rest => getJsonLdIds item ++ getJsonLdIdsFromList rest

end

/-- Embedding of `toKnownCurie`: compress a known vocabulary IRI to its
CURIE, passing unknown IRIs through unchanged. -/
def toKnownCurie (iri : String) : String :=
  if startsWithStr "https://fide.work/vocab#" iri then
    "fide:" ++ iri.drop "https://fide.work/vocab#".length
  else if startsWithStr "https://schema.org/" iri then
    "schema:" ++ iri.drop "https://schema.org/".length
  else if startsWithStr "http://www.w3.org/2000/01/rdf-schema#" iri then
    "rdfs:" ++ iri.drop "http://www.w3.org/2000/01/rdf-schema#".length
  else if startsWithStr "http://www.w3.org/2002/07/owl#" iri then
    "owl:" ++ iri.drop "http://www.w3.org/2002/07/owl#".length
  else if startsWithStr "https://www.w3.org/2002/07/owl#" iri then
    "owl:" ++ iri.drop "https://www.w3.org/2002/07/owl#".length
  else if startsWithStr "http://www.w3.org/ns/prov#" iri then
    "prov:" ++ iri.drop "http://www.w3.org/ns/prov#".length
  else if startsWithStr "https://www.w3.org/ns/prov#" iri then
    "prov:" ++ iri.drop "https://www.w3.org/ns/prov#".length
  else if startsWithStr "http://www.w3.org/1999/02/22-rdf-syntax-ns#" iri then
    "rdf:" ++ iri.drop "http://www.w3.org/1999/02/22-rdf-syntax-ns#".length
  else if startsWithStr "http://www.w3.org/2001/XMLSchema#" iri then
    "xsd:" ++ iri.drop "http://www.w3.org/2001/XMLSchema#".length
  else if startsWithStr "http://www.w3.org/ns/org#" iri then
    "org:" ++ iri.drop "http://www.w3.org/ns/org#".length
  else if startsWithStr "https://w3id.org/security#" iri then
    "sec:" ++ iri.drop "https://w3id.org/security#".length
  else iri

/-- Kind tag of a prompt definition entry. -/
inductive PromptDefinitionKind where
  | entity_type
  | predicate
  | other
deriving DecidableEq, Repr

/-- Embedding of the `PromptDefinitionEntry` record built per vocabulary
node. -/
structure PromptDefinitionEntry where
  term : String
  kind : PromptDefinitionKind
  label : Option String
  definition : Option String
  category : Option String
  equivalentClass : List String
  subClassOf : List String
deriving DecidableEq, Repr

/-- The definition entry `loadVocabularyIndex` builds for a graph node with
the given id. -/
def vocabDefinitionOfNode (fields : List (String × Json)) (id : String) :
    PromptDefinitionEntry :=
  let curie := toKnownCurie id
  { term := curie
    kind := if startsWithStr "fide:" curie then .entity_type
      else if strIncludes curie ":" then .predicate
      else .other
    label := (getJsonLdText (recordGet fields "rdfs:label")).orElse
      (fun _ => getJsonLdText (recordGet fields "schema:name"))
    definition := getJsonLdText (recordGet fields "rdfs:comment")
    category := getJsonLdText (recordGet fields "schema:category")
    equivalentClass := (getJsonLdIds (recordGet fields "owl:equivalentClass")).map toKnownCurie
    subClassOf := (getJsonLdIds (recordGet fields "rdfs:subClassOf")).map toKnownCurie }

/-- Process one `@graph` node: nodes that are not objects, or have no
non-empty string `@id`, are skipped; otherwise the built definition is
stored under both the CURIE and the full id. -/
def applyVocabNode (index : List (String × PromptDefinitionEntry)) (node : Json) :
    List (String × PromptDefinitionEntry) :=
  match node with
  | .obj fields =>
    match recordGet fields "@id" with
    | .str id =>
      if id = "" then index
      else
        let definition := vocabDefinitionOfNode fields id
        jsMapSet (jsMapSet index (toKnownCurie id) definition) id definition
    | _ => index
  | _ => index

/-- The `@graph` array of a parsed snapshot (anything else reads as an
empty graph). -/
def vocabGraphOf (parsed : Json) : List Json :=
  match parsed with
  | .obj fields =>
    match recordGet fields "@graph" with
    | .arr items => items
    | _ => []
  | _ => []

/-- Embedding of `loadVocabularyIndex`: fold the snapshots in load order
into one index, skipping unreadable or unparseable files. -/
def loadVocabularyIndex (files : List (Option Json)) :
    List (String × PromptDefinitionEntry) :=
  files.foldl (fun index file =>
    match file with
    | none => index
    | some parsed => (vocabGraphOf parsed).foldl applyVocabNode index) []

/-- The sequence of `index.set` operations one node performs (for stating
which snapshot a surviving definition comes from). -/
def vocabOpsOfNode (node : Json) : List (String × PromptDefinitionEntry) :=
  match node with
  | .obj fields =>
    match recordGet fields "@id" with
    | .str id =>
      if id = "" then []
      else
        let definition := vocabDefinitionOfNode fields id
        [(toKnownCurie id, definition), (id, definition)]
    | _ => []
  | _ => []

/-- The flat sequence of `index.set` operations a file list performs. -/
def vocabOps (files : List (Option Json)) : List (String × PromptDefinitionEntry) :=
  files.flatMap (fun file =>
    match file with
    | none => []
    | some parsed => (vocabGraphOf parsed).flatMap vocabOpsOfNode)

/-! ## Specification-side predicates and ranking keys -/

/-- The ranking key the resolver's comparator realises: sentinel-filled
first-seen timestamp, then sentinel-filled statement id, then subject raw
value, ordered lexicographically. -/
def candidateKey (c : ValidFromCandidate) : Lex (Int × Lex (List Char × List Char)) :=
  toLex (c.firstSeenAt.getD MAX_SAFE_INTEGER,
    toLex ((c.statementFideId.getD "~").data, c.subjectRawIdentifier.data))

/-- Well-formedness of the dedup map: every entry is keyed by its
statement's own id (an invariant of `insertStatements`). -/
def StmtMapWF (m : List (String × FideIdStatement)) : Prop :=
  ∀ e ∈ m, e.1 = e.2.statementFideId

/-- A scenario row re-derives to the claim-id set: it is a validFrom
statement about a statement whose subject raw value splits into three
did:fide:0x components whose re-derived statement id is a member of the
set.  `validFromCandidateOfRow` succeeds exactly on such rows. -/
def reDerivesToClaimSet (calcStatementFideId : String → String → String → Option String)
    (sameAsStatementIdSet : List String) (row : ScenarioStatement) : Prop :=
  row.predicate_raw_identifier = "https://schema.org/validFrom"
  ∧ row.subject_type = "Statement"
  ∧ ∃ p0 p1 p2 tid, jsSplitPipe row.subject_raw_identifier = [p0, p1, p2]
      ∧ startsWithStr "did:fide:0x" p0 = true
      ∧ startsWithStr "did:fide:0x" p1 = true
      ∧ startsWithStr "did:fide:0x" p2 = true
      ∧ calcStatementFideId p0 p1 p2 = some tid
      ∧ tid ∈ sameAsStatementIdSet

/-- A validFrom statement-about-a-statement with a malformed subject
encoding: the subject raw value does not split into exactly three
did:fide:0x components, or its re-derivation throws. -/
def malformedValidFromAboutStatement
    (calcStatementFideId : String → String → String → Option String)
    (row : ScenarioStatement) : Prop :=
  row.predicate_raw_identifier = "https://schema.org/validFrom"
  ∧ row.subject_type = "Statement"
  ∧ ((jsSplitPipe row.subject_raw_identifier).length ≠ 3
    ∨ (∃ part ∈ jsSplitPipe row.subject_raw_identifier,
        startsWithStr "did:fide:0x" part = false)
    ∨ (∀ p0 p1 p2, jsSplitPipe row.subject_raw_identifier = [p0, p1, p2] →
        calcStatementFideId p0 p1 p2 = none))

/-! ## Concrete fixtures used by the witnesses and counterexamples -/

/-- A target owl:sameAs statement. -/
def demoTarget : FideIdStatement :=
  ⟨"T", "s", "S", "p", OWL_SAME_AS_IRI, "o", "O"⟩

/-- A validFrom statement about `demoTarget` (by id-as-raw) dated
2020-01-01 with statement id "a2". -/
def demoVfA : FideIdStatement :=
  ⟨"a2", "x1", "T", "pv", SCHEMA_VALID_FROM_IRI, "d1", "2020-01-01"⟩

/-- A validFrom statement about `demoTarget` dated 2025-01-01 with the
lexicographically smaller statement id "a1". -/
def demoVfB : FideIdStatement :=
  ⟨"a1", "x2", "T", "pv", SCHEMA_VALID_FROM_IRI, "d2", "2025-01-01"⟩

/-- A report-backed hadPrimarySource citation of `demoVfA`. -/
def demoCiteA : FideIdStatement :=
  ⟨"c1", "a2", "A2R", "pc", PROV_HAD_PRIMARY_SOURCE_IRI, "r1",
    "https://fide.work/evidence/reports/x"⟩

/-- A non-report-backed hadPrimarySource citation of `demoVfB`. -/
def demoCiteLoose : FideIdStatement :=
  ⟨"c2", "a1", "A1R", "pc", PROV_HAD_PRIMARY_SOURCE_IRI, "r2", "ipfs://notareport"⟩

/-- A schema:name statement on `demoTarget`'s subject endpoint. -/
def demoName : FideIdStatement :=
  ⟨"n1", "s", "S", "pn", SCHEMA_NAME_IRI, "ln", "Alice"⟩

/-- A statement referencing `demoTarget` through the pipe-joined raw
triple encoding. -/
def demoRefByTriple : FideIdStatement :=
  ⟨"rt1", "q1", "s|p|o", "pv", SCHEMA_VALID_FROM_IRI, "d3", "2020-02-02"⟩

/-- Context for the citation_chain anchor divergence: both validFrom
statements reference the target, only the 2020-dated one is cited by a
report-backed primary source. -/
def demoCtx : List FideIdStatement := [demoTarget, demoVfA, demoVfB, demoCiteA]

/-- Context in which the sole anchor has only a non-report-backed
citation. -/
def demoCtxC4 : List FideIdStatement := [demoTarget, demoVfB, demoCiteLoose]

/-- Context with one name statement for the selection-policy witness. -/
def demoCtxC5 : List FideIdStatement := [demoTarget, demoName]

/-- The pipe-joined subject raw value of the resolver fixtures. -/
def demoTripleRaw : String := "did:fide:0xa|did:fide:0xb|did:fide:0xc"

/-- Concrete stand-in for the external `calculateStatementFideId`: defined
on the fixture triple, throwing (`none`) elsewhere. -/
def demoCalc (a b c : String) : Option String :=
  if a == "did:fide:0xa" && b == "did:fide:0xb" && c == "did:fide:0xc" then some "S"
  else none

/-- Concrete stand-in for the external `calculateFideId`. -/
def demoCalcFideId : String → String → String → String :=
  fun _ _ _ => "did:fide:0xprimary"

/-- Resolver fixture configuration. -/
def demoConfig : FixtureConfig := ⟨"Person"⟩

/-- The focal owl:sameAs scenario row with recorded statement id "S". -/
def rowSameAs : ScenarioStatement :=
  ⟨some "S", some 1, "Person", "alice", "https://www.w3.org/2002/07/owl#sameAs",
    "Person", "alice2"⟩

/-- A validFrom anchor candidate dated 2022-06-01 with the
lexicographically smaller statement id "vf-1". -/
def rowVf2022 : ScenarioStatement :=
  ⟨some "vf-1", some 100, "Statement", demoTripleRaw, "https://schema.org/validFrom",
    "DateLiteral", "2022-06-01"⟩

/-- A validFrom anchor candidate dated 2021-01-01 with statement id
"vf-2" and the same first-seen timestamp as `rowVf2022`. -/
def rowVf2021 : ScenarioStatement :=
  ⟨some "vf-2", some 100, "Statement", demoTripleRaw, "https://schema.org/validFrom",
    "DateLiteral", "2021-01-01"⟩

/-- Resolver scenario: two anchor candidates distinguished only by their
validFrom date literals and their (necessarily distinct) statement ids. -/
def demoStatementsC8 : List ScenarioStatement := [rowSameAs, rowVf2022, rowVf2021]

/-- The same resolver scenario with the candidate rows in swapped order:
the 2021-01-01 row (id "vf-2") now precedes the 2022-06-01 row (id
"vf-1") in the statement list, so the sort has to reorder. -/
def demoStatementsC8Swapped : List ScenarioStatement := [rowSameAs, rowVf2021, rowVf2022]

/-- An anchor candidate with no recorded statement id. -/
def rowVfNoId : ScenarioStatement :=
  ⟨none, some 100, "Statement", demoTripleRaw, "https://schema.org/validFrom",
    "DateLiteral", "2021-01-01"⟩

/-- An anchor candidate whose recorded statement id starts with the
tilde character, i.e. sorts after the missing-id sentinel "~". -/
def rowVfTilde : ScenarioStatement :=
  ⟨some "~a", some 100, "Statement", demoTripleRaw, "https://schema.org/validFrom",
    "DateLiteral", "2021-01-01"⟩

/-- Resolver scenario for the missing-id tie-break edge case. -/
def demoStatementsC2 : List ScenarioStatement := [rowSameAs, rowVfNoId, rowVfTilde]

/-- A validFrom statement-about-a-statement whose subject raw value does
not split into a did:fide:0x triple. -/
def rowVfMalformed : ScenarioStatement :=
  ⟨some "vf-3", some 5, "Statement", "not-a-triple", "https://schema.org/validFrom",
    "DateLiteral", "2020"⟩

/-- First vocabulary snapshot: one node for term:alpha labelled "A". -/
def vocabFileA : Json :=
  Json.obj [("@graph", Json.arr
    [Json.obj [("@id", Json.str "term:alpha"), ("rdfs:label", Json.str "A")]])]

/-- Second vocabulary snapshot: the same term:alpha labelled "B". -/
def vocabFileB : Json :=
  Json.obj [("@graph", Json.arr
    [Json.obj [("@id", Json.str "term:alpha"), ("rdfs:label", Json.str "B")]])]

/-! ## Support lemmas: the stable sort -/

/-- Membership in an insertion. -/
theorem mem_insertIntoSorted {α : Type} (le : α → α → Bool) (a x : α) (l : List α) :
    x ∈ insertIntoSorted le a l ↔ x = a ∨ x ∈ l := by
  induction l with
  | nil => simp [insertIntoSorted]
  | cons b bs ih =>
    by_cases h : le b a = true
    · simp only [insertIntoSorted, if_pos h, List.mem_cons, ih]
      tauto
    · simp only [insertIntoSorted, if_neg h, List.mem_cons]

/-- Insertion preserves sortedness for a transitive, total comparator. -/
theorem pairwise_insertIntoSorted {α : Type} (le : α → α → Bool)
    (htrans : ∀ a b c, le a b = true → le b c = true → le a c = true)
    (htotal : ∀ a b, le a b = true ∨ le b a = true)
    (a : α) (l : List α) (hl : l.Pairwise (fun x y => le x y = true)) :
    (insertIntoSorted le a l).Pairwise (fun x y => le x y = true) := by
  induction l with
  | nil => simp [insertIntoSorted]
  | cons b bs ih =>
    rcases List.pairwise_cons.mp hl with ⟨hb, hbs⟩
    by_cases h : le b a = true
    · rw [insertIntoSorted, if_pos h]
      refine List.pairwise_cons.mpr ⟨?_, ih hbs⟩
      intro x hx
      rcases (mem_insertIntoSorted le a x bs).mp hx with rfl | hx
      · exact h
      · exact hb x hx
    · rw [insertIntoSorted, if_neg h]
      have ha : le a b = true := (htotal a b).resolve_right h
      refine List.pairwise_cons.mpr ⟨?_, hl⟩
      intro x hx
      rcases List.mem_cons.mp hx with rfl | hx
      · exact ha
      · exact htrans a b x ha (hb x hx)

/-- The stable sort is sorted for a transitive, total comparator. -/
theorem pairwise_stableSortBy {α : Type} (le : α → α → Bool)
    (htrans : ∀ a b c, le a b = true → le b c = true → le a c = true)
    (htotal : ∀ a b, le a b = true ∨ le b a = true)
    (l : List α) :
    (stableSortBy le l).Pairwise (fun x y => le x y = true) := by
  suffices h : ∀ acc : List α, acc.Pairwise (fun x y => le x y = true) →
      (l.foldl (fun acc a => insertIntoSorted le a acc) acc).Pairwise
        (fun x y => le x y = true) by
    exact h [] (by simp)
  induction l with
  | nil => intro acc hacc; simpa using hacc
  | cons a as ih =>
    intro acc hacc
    exact ih _ (pairwise_insertIntoSorted le htrans htotal a acc hacc)

/-- Membership in the stable sort. -/
theorem mem_stableSortBy {α : Type} (le : α → α → Bool) (x : α) (l : List α) :
    x ∈ stableSortBy le l ↔ x ∈ l := by
  suffices h : ∀ acc : List α,
      (x ∈ l.foldl (fun acc a => insertIntoSorted le a acc) acc ↔ x ∈ acc ∨ x ∈ l) by
    rw [stableSortBy, h []]; simp
  induction l with
  | nil => intro acc; simp
  | cons a as ih =>
    intro acc
    rw [List.foldl_cons, ih (insertIntoSorted le a acc), mem_insertIntoSorted]
    simp only [List.mem_cons]
    tauto

/-- The head of the stable sort is minimal with respect to the
comparator. -/
theorem stableSortBy_head_le {α : Type} (le : α → α → Bool)
    (htrans : ∀ a b c, le a b = true → le b c = true → le a c = true)
    (htotal : ∀ a b, le a b = true ∨ le b a = true)
    {l : List α} {w : α} {rest : List α}
    (h : stableSortBy le l = w :: rest) :
    ∀ x ∈ l, le w x = true := by
  intro x hx
  have hx' : x ∈ w :: rest := by rw [← h, mem_stableSortBy]; exact hx
  rcases List.mem_cons.mp hx' with rfl | hx'
  · rcases htotal x x with h' | h' <;> exact h'
  · have hp := pairwise_stableSortBy le htrans htotal l
    rw [h] at hp
    exact (List.pairwise_cons.mp hp).1 x hx'

/-- The stable sort of a list is empty exactly when the list is. -/
theorem stableSortBy_eq_nil_iff {α : Type} (le : α → α → Bool) (l : List α) :
    stableSortBy le l = [] ↔ l = [] := by
  constructor
  · intro h
    cases l with
    | nil => rfl
    | cons a as =>
      exfalso
      have : a ∈ stableSortBy le (a :: as) := by
        rw [mem_stableSortBy]; exact List.mem_cons_self a as
      rw [h] at this
      exact absurd this (List.not_mem_nil a)
  · intro h; subst h; rfl

/-! ## Support lemmas: string comparison -/

/-- The comparator result `localeCmp a b ≤ 0` is the lexicographic
less-or-equal on the character data. -/
theorem localeCmp_le_zero_iff (a b : String) : localeCmp a b ≤ 0 ↔ a.data ≤ b.data := by
  unfold localeCmp
  split_ifs with h1 h2
  · constructor
    · intro _; exact le_of_lt h1
    · intro _; decide
  · constructor
    · intro h; exact absurd h (by decide)
    · intro h; exact absurd h (not_le.mpr h2)
  · constructor
    · intro _; exact le_of_not_lt h2
    · intro _; decide

/-- Transitivity of the statement-id comparator used by the
citation_chain anchor sort. -/
theorem stmtIdLe_trans (a b c : FideIdStatement)
    (hab : decide (localeCmp a.statementFideId b.statementFideId ≤ 0) = true)
    (hbc : decide (localeCmp b.statementFideId c.statementFideId ≤ 0) = true) :
    decide (localeCmp a.statementFideId c.statementFideId ≤ 0) = true := by
  rw [decide_eq_true_iff, localeCmp_le_zero_iff] at hab hbc ⊢
  exact le_trans hab hbc

/-- Totality of the statement-id comparator. -/
theorem stmtIdLe_total (a b : FideIdStatement) :
    decide (localeCmp a.statementFideId b.statementFideId ≤ 0) = true
    ∨ decide (localeCmp b.statementFideId a.statementFideId ≤ 0) = true := by
  rw [decide_eq_true_iff, decide_eq_true_iff, localeCmp_le_zero_iff,
    localeCmp_le_zero_iff]
  exact le_total _ _

/-! ## Support lemmas: the resolver comparator realises the ranking key -/

/-- The resolver's comparator accepts exactly the key-ordered pairs. -/
theorem candidateLe_iff (a b : ValidFromCandidate) :
    candidateLe a b = true ↔ candidateKey a ≤ candidateKey b := by
  unfold candidateLe candidateCmp candidateKey
  rw [decide_eq_true_iff, Prod.Lex.le_iff]
  dsimp only
  split_ifs with ht hi
  · constructor
    · intro h; left; omega
    · rintro (h | ⟨h, -⟩)
      · omega
      · exact absurd h ht
  · push_neg at ht
    rw [Prod.Lex.le_iff]
    constructor
    · intro h
      right
      refine ⟨ht, Or.inl ?_⟩
      have hle : (a.statementFideId.getD "~").data ≤ (b.statementFideId.getD "~").data :=
        (localeCmp_le_zero_iff _ _).mp h
      have hne : (a.statementFideId.getD "~").data ≠ (b.statementFideId.getD "~").data :=
        fun hd => hi (String.ext hd)
      exact lt_of_le_of_ne hle hne
    · rintro (h | ⟨-, h | ⟨hd, -⟩⟩)
      · exact absurd h (by rw [ht]; exact lt_irrefl _)
      · exact (localeCmp_le_zero_iff _ _).mpr (le_of_lt h)
      · exact absurd (String.ext hd) hi
  · push_neg at ht hi
    rw [Prod.Lex.le_iff]
    constructor
    · intro h
      right
      exact ⟨ht, Or.inr ⟨by rw [hi], (localeCmp_le_zero_iff _ _).mp h⟩⟩
    · rintro (h | ⟨-, h | ⟨-, h⟩⟩)
      · exact absurd h (by rw [ht]; exact lt_irrefl _)
      · rw [hi] at h; exact absurd h (lt_irrefl _)
      · exact (localeCmp_le_zero_iff _ _).mpr h

/-- Transitivity of the resolver comparator. -/
theorem candidateLe_trans (a b c : ValidFromCandidate)
    (hab : candidateLe a b = true) (hbc : candidateLe b c = true) :
    candidateLe a c = true := by
  rw [candidateLe_iff] at hab hbc ⊢
  exact le_trans hab hbc

/-- Totality of the resolver comparator. -/
theorem candidateLe_total (a b : ValidFromCandidate) :
    candidateLe a b = true ∨ candidateLe b a = true := by
  rw [candidateLe_iff, candidateLe_iff]
  exact le_total _ _

/-! ## Support lemmas: the JavaScript map model -/

/-- Finding the updated key in the replacement branch of `jsMapSet`. -/
theorem find?_jsMapReplace {α : Type} (m : List (String × α)) (k : String) (v : α) :
    (m.map (fun e => if e.1 == k then (k, v) else e)).find? (fun e => e.1 == k)
      = if m.any (fun e => e.1 == k) then some (k, v) else none := by
  induction m with
  | nil => simp
  | cons e m ih =>
    by_cases h : e.1 = k
    · simp [h]
    · simp only [List.map_cons, List.any_cons]
      have hb : (e.1 == k) = false := by simpa using h
      rw [if_neg (by simp [hb]), List.find?_cons_of_neg _ (by simp [hb]), ih]
      simp only [hb, Bool.false_or]

/-- Finding another key is unaffected by the replacement branch. -/
theorem find?_jsMapReplace_ne {α : Type} (m : List (String × α)) (k k' : String) (v : α)
    (hne : k' ≠ k) :
    (m.map (fun e => if e.1 == k then (k, v) else e)).find? (fun e => e.1 == k')
      = m.find? (fun e => e.1 == k') := by
  induction m with
  | nil => simp
  | cons e m ih =>
    by_cases h : e.1 = k
    · have h1 : (e.1 == k) = true := by simpa using h
      have h2 : (k == k') = false := by simpa using (Ne.symm hne)
      have h3 : (e.1 == k') = false := by simp [h, h2]
      simp only [List.map_cons, h1, if_true]
      rw [List.find?_cons_of_neg _ (by simpa using h2),
        List.find?_cons_of_neg _ (by simpa using h3), ih]
    · have h1 : (e.1 == k) = false := by simpa using h
      simp only [List.map_cons, h1, if_false]
      by_cases h' : e.1 = k'
      · rw [List.find?_cons_of_pos _ (by simp [h1, h']),
          List.find?_cons_of_pos _ (by simpa using h')]
        simp
      · rw [List.find?_cons_of_neg _ (by simp [h1, h']),
          List.find?_cons_of_neg _ (by simpa using h'), ih]

/-- Reading back the key just set. -/
theorem jsMapGet_set_self {α : Type} (m : List (String × α)) (k : String) (v : α) :
    jsMapGet (jsMapSet m k v) k = some v := by
  unfold jsMapSet jsMapGet
  by_cases h : m.any (fun e => e.1 == k)
  · rw [if_pos h, find?_jsMapReplace, if_pos h]
    rfl
  · rw [if_neg h, List.find?_append]
    have hnone : m.find? (fun e => e.1 == k) = none := by
      rw [List.find?_eq_none]
      intro e he hpred
      exact h (List.any_eq_true.mpr ⟨e, he, hpred⟩)
    rw [hnone]
    simp

/-- Reading any other key after a set. -/
theorem jsMapGet_set_ne {α : Type} (m : List (String × α)) (k k' : String) (v : α)
    (hne : k' ≠ k) :
    jsMapGet (jsMapSet m k v) k' = jsMapGet m k' := by
  unfold jsMapSet jsMapGet
  by_cases h : m.any (fun e => e.1 == k)
  · rw [if_pos h, find?_jsMapReplace_ne m k k' v hne]
  · rw [if_neg h, List.find?_append]
    have hsingle : ([(k, v)]).find? (fun e => e.1 == k') = none := by
      simp [Ne.symm hne]
    rw [hsingle, Option.or_none]

/-- The key list after a set: unchanged when the key was present, the key
appended otherwise. -/
theorem keys_jsMapSet {α : Type} (m : List (String × α)) (k : String) (v : α) :
    (jsMapSet m k v).map Prod.fst
      = if m.any (fun e => e.1 == k) then m.map Prod.fst
        else m.map Prod.fst ++ [k] := by
  unfold jsMapSet
  split_ifs with h
  · rw [List.map_map]
    apply List.map_congr_left
    intro e he
    by_cases h' : e.1 = k <;> simp [h']
  · simp

/-- Key membership after a set. -/
theorem mem_keys_jsMapSet {α : Type} (m : List (String × α)) (k a : String) (v : α) :
    a ∈ (jsMapSet m k v).map Prod.fst ↔ a ∈ m.map Prod.fst ∨ a = k := by
  rw [keys_jsMapSet]
  split_ifs with h
  · constructor
    · exact Or.inl
    · rintro (ha | rfl)
      · exact ha
      · rcases List.any_eq_true.mp h with ⟨e, he, hpred⟩
        exact List.mem_map.mpr ⟨e, he, by simpa using hpred⟩
  · simp [List.mem_append]

/-- A set preserves key distinctness. -/
theorem nodup_keys_jsMapSet {α : Type} (m : List (String × α)) (k : String) (v : α)
    (h : (m.map Prod.fst).Nodup) :
    ((jsMapSet m k v).map Prod.fst).Nodup := by
  rw [keys_jsMapSet]
  split_ifs with hany
  · exact h
  · rw [List.nodup_append]
    refine ⟨h, List.nodup_singleton k, ?_⟩
    intro a ha hk
    rcases List.mem_singleton.mp hk with rfl
    rcases List.mem_map.mp ha with ⟨e, he, hfst⟩
    exact hany (List.any_eq_true.mpr ⟨e, he, by simpa using hfst⟩)

/-- Every value after a set was already a value or is the value set. -/
theorem mem_values_jsMapSet {α : Type} (m : List (String × α)) (k : String) (v w : α) :
    w ∈ (jsMapSet m k v).map Prod.snd → w ∈ m.map Prod.snd ∨ w = v := by
  unfold jsMapSet
  split_ifs with h
  · intro hw
    rw [List.map_map] at hw
    rcases List.mem_map.mp hw with ⟨e, he, heq⟩
    by_cases h' : e.1 = k
    · right; rw [← heq]; simp [h']
    · left
      refine List.mem_map.mpr ⟨e, he, ?_⟩
      rw [← heq]; simp [h']
  · intro hw
    rw [List.map_append] at hw
    rcases List.mem_append.mp hw with hw | hw
    · exact Or.inl hw
    · right; simpa using hw

/-- A set at a statement's own id preserves map well-formedness. -/
theorem stmtMapWF_jsMapSet (m : List (String × FideIdStatement)) (s : FideIdStatement)
    (h : StmtMapWF m) : StmtMapWF (jsMapSet m s.statementFideId s) := by
  unfold jsMapSet
  split_ifs with hany
  · intro e he
    rcases List.mem_map.mp he with ⟨e', he', heq⟩
    by_cases h' : e'.1 = s.statementFideId
    · rw [← heq]; simp [h']
    · rw [← heq]
      have hb : (e'.1 == s.statementFideId) = false := by simpa using h'
      simp only [hb, Bool.false_eq_true, if_false]
      exact h e' he'
  · intro e he
    rcases List.mem_append.mp he with he | he
    · exact h e he
    · rcases List.mem_singleton.mp he with rfl
      rfl

/-- `insertStatements` preserves well-formedness. -/
theorem stmtMapWF_insertStatements (l : List FideIdStatement) :
    ∀ m, StmtMapWF m → StmtMapWF (insertStatements m l) := by
  induction l with
  | nil => intro m h; exact h
  | cons s l ih =>
    intro m h
    exact ih _ (stmtMapWF_jsMapSet m s h)

/-- Key membership after inserting a batch of statements. -/
theorem mem_keys_insertStatements (l : List FideIdStatement) :
    ∀ (m : List (String × FideIdStatement)) (a : String),
      a ∈ (insertStatements m l).map Prod.fst
        ↔ a ∈ m.map Prod.fst ∨ ∃ s ∈ l, s.statementFideId = a := by
  induction l with
  | nil => intro m a; simp [insertStatements]
  | cons s l ih =>
    intro m a
    have hstep : insertStatements m (s :: l)
        = insertStatements (jsMapSet m s.statementFideId s) l := rfl
    rw [hstep, ih, mem_keys_jsMapSet]
    constructor
    · rintro ((h | rfl) | ⟨t, ht, rfl⟩)
      · exact Or.inl h
      · exact Or.inr ⟨s, List.mem_cons_self s l, rfl⟩
      · exact Or.inr ⟨t, List.mem_cons_of_mem s ht, rfl⟩
    · rintro (h | ⟨t, ht, rfl⟩)
      · exact Or.inl (Or.inl h)
      · rcases List.mem_cons.mp ht with rfl | ht
        · exact Or.inl (Or.inr rfl)
        · exact Or.inr ⟨t, ht, rfl⟩

/-- Inserting a batch preserves key distinctness. -/
theorem nodup_keys_insertStatements (l : List FideIdStatement) :
    ∀ m, (List.map Prod.fst m).Nodup → ((insertStatements m l).map Prod.fst).Nodup := by
  induction l with
  | nil => intro m h; exact h
  | cons s l ih =>
    intro m h
    exact ih _ (nodup_keys_jsMapSet m s.statementFideId s h)

/-- Every value after inserting a batch is an old value or a batch
member. -/
theorem mem_values_insertStatements (l : List FideIdStatement) :
    ∀ (m : List (String × FideIdStatement)) (w : FideIdStatement),
      w ∈ (insertStatements m l).map Prod.snd → w ∈ m.map Prod.snd ∨ w ∈ l := by
  induction l with
  | nil => intro m w h; exact Or.inl h
  | cons s l ih =>
    intro m w h
    rcases ih _ w h with h | h
    · rcases mem_values_jsMapSet m s.statementFideId s w h with h | rfl
      · exact Or.inl h
      · exact Or.inr (List.mem_cons_self w l)
    · exact Or.inr (List.mem_cons_of_mem s h)

/-- In a well-formed map, every key is realised by a value with that
statement id. -/
theorem exists_value_of_key (m : List (String × FideIdStatement)) (h : StmtMapWF m)
    (a : String) (ha : a ∈ m.map Prod.fst) :
    ∃ t ∈ m.map Prod.snd, t.statementFideId = a := by
  rcases List.mem_map.mp ha with ⟨e, he, rfl⟩
  exact ⟨e.2, List.mem_map.mpr ⟨e, he, rfl⟩, (h e he).symm⟩

/-- In a well-formed map, the values' ids are the keys. -/
theorem values_ids_eq_keys (m : List (String × FideIdStatement)) (h : StmtMapWF m) :
    (m.map Prod.snd).map (fun t => t.statementFideId) = m.map Prod.fst := by
  rw [List.map_map]
  apply List.map_congr_left
  intro e he
  exact (h e he).symm

/-! ## C1: closure boundedness -/

/-- C1: for every target statement and statement list the evidence closure
computed by `buildPersonPromptContextStatements` equals exactly the union
of the target and the eight named hop categories (`closureSpec`): every
result member lies in the union, every union member is represented in the
result (deduplication is by statement id, so representation is up to
statement id), no two results share a statement id, and the target's
statement id is always included. -/
theorem c1_closure_boundedness (target : FideIdStatement) (all : List FideIdStatement) :
    (∀ s ∈ buildPersonPromptContextStatements target all, s ∈ closureSpec target all)
    ∧ (∀ s ∈ closureSpec target all,
        ∃ t ∈ buildPersonPromptContextStatements target all,
          t.statementFideId = s.statementFideId)
    ∧ ((buildPersonPromptContextStatements target all).map
        (fun t => t.statementFideId)).Nodup
    ∧ ∃ t ∈ buildPersonPromptContextStatements target all,
        t.statementFideId = target.statementFideId := by
  have hbuild : buildPersonPromptContextStatements target all
      = (insertStatements (insertStatements (insertStatements []
          (target :: (validTemporalOf target all ++ citationsOf target all
            ++ namesOf target all ++ affiliationsOf target all
            ++ contradictionsOf target all)))
          (reportStatementsOf target all))
          (propertyNodeStatementsOf target all)).map Prod.snd := rfl
  have hwf0 : StmtMapWF (insertStatements []
      (target :: (validTemporalOf target all ++ citationsOf target all
        ++ namesOf target all ++ affiliationsOf target all
        ++ contradictionsOf target all))) :=
    stmtMapWF_insertStatements _ _ (fun e he => absurd he (List.not_mem_nil e))
  have hwf1 := stmtMapWF_insertStatements (reportStatementsOf target all) _ hwf0
  have hwf2 := stmtMapWF_insertStatements (propertyNodeStatementsOf target all) _ hwf1
  have hsplit : ∀ s : FideIdStatement,
      (s ∈ target :: (validTemporalOf target all ++ citationsOf target all
          ++ namesOf target all ++ affiliationsOf target all
          ++ contradictionsOf target all)
        ∨ s ∈ reportStatementsOf target all
        ∨ s ∈ propertyNodeStatementsOf target all)
      ↔ s ∈ closureSpec target all := by
    intro s
    simp only [closureSpec, List.mem_cons, List.mem_append]
    tauto
  have hkeys : ∀ a : String,
      a ∈ (insertStatements (insertStatements (insertStatements []
          (target :: (validTemporalOf target all ++ citationsOf target all
            ++ namesOf target all ++ affiliationsOf target all
            ++ contradictionsOf target all)))
          (reportStatementsOf target all))
          (propertyNodeStatementsOf target all)).map Prod.fst
        ↔ ∃ s ∈ closureSpec target all, s.statementFideId = a := by
    intro a
    rw [mem_keys_insertStatements, mem_keys_insertStatements, mem_keys_insertStatements]
    simp only [List.map_nil, List.not_mem_nil, false_or]
    constructor
    · rintro ((⟨s, hs, h⟩ | ⟨s, hs, h⟩) | ⟨s, hs, h⟩)
      · exact ⟨s, (hsplit s).mp (Or.inl hs), h⟩
      · exact ⟨s, (hsplit s).mp (Or.inr (Or.inl hs)), h⟩
      · exact ⟨s, (hsplit s).mp (Or.inr (Or.inr hs)), h⟩
    · rintro ⟨s, hs, h⟩
      rcases (hsplit s).mpr hs with h1 | h2 | h3
      · exact Or.inl (Or.inl ⟨s, h1, h⟩)
      · exact Or.inl (Or.inr ⟨s, h2, h⟩)
      · exact Or.inr ⟨s, h3, h⟩
  refine ⟨?_, ?_, ?_, ?_⟩
  · intro s hs
    rw [hbuild] at hs
    rcases mem_values_insertStatements _ _ _ hs with hs' | hs'
    · rcases mem_values_insertStatements _ _ _ hs' with hs'' | hs''
      · rcases mem_values_insertStatements _ _ _ hs'' with hs3 | hs3
        · simp at hs3
        · exact (hsplit s).mp (Or.inl hs3)
      · exact (hsplit s).mp (Or.inr (Or.inl hs''))
    · exact (hsplit s).mp (Or.inr (Or.inr hs'))
  · intro s hs
    have hkey := (hkeys s.statementFideId).mpr ⟨s, hs, rfl⟩
    rcases exists_value_of_key _ hwf2 _ hkey with ⟨t, ht, hid⟩
    rw [hbuild]
    exact ⟨t, ht, hid⟩
  · rw [hbuild, values_ids_eq_keys _ hwf2]
    exact nodup_keys_insertStatements _ _
      (nodup_keys_insertStatements _ _
        (nodup_keys_insertStatements _ _ (by simp)))
  · have hkey := (hkeys target.statementFideId).mpr
      ⟨target, List.mem_cons_self target _, rfl⟩
    rcases exists_value_of_key _ hwf2 _ hkey with ⟨t, ht, hid⟩
    rw [hbuild]
    exact ⟨t, ht, hid⟩

/-- Witness for C1: a concrete closure containing a citation, evaluated at
`demoTarget` over `demoCtx`. -/
theorem c1_closure_boundedness_witness :
    (∃ t ∈ buildPersonPromptContextStatements demoTarget demoCtx,
      t.statementFideId = demoCiteA.statementFideId)
    ∧ ∃ t ∈ buildPersonPromptContextStatements demoTarget demoCtx,
        t.statementFideId = demoTarget.statementFideId :=
  ⟨(c1_closure_boundedness demoTarget demoCtx).2.1 demoCiteA (by decide),
   (c1_closure_boundedness demoTarget demoCtx).2.2.2⟩

/-! ## C3: reference-matching equivalence -/

/-- C3: a candidate that carries the target's own statement id as its
subject raw value and a candidate that carries the pipe-joined
subject/predicate/object triple as its subject raw value are treated
identically by `matchesStatementReference`: both match. -/
theorem c3_reference_encoding_equivalence (target cById cByTriple : FideIdStatement)
    (h1 : cById.subjectRawIdentifier = target.statementFideId)
    (h2 : cByTriple.subjectRawIdentifier = buildStatementRawIdentifier
      target.subjectFideId target.predicateFideId target.objectFideId) :
    matchesStatementReference cById target = true
    ∧ matchesStatementReference cByTriple target = true
    ∧ matchesStatementReference cById target = matchesStatementReference cByTriple target := by
  unfold matchesStatementReference
  rw [h1, h2]
  simp

/-- Witness for C3 at concrete statements: `demoVfA` references
`demoTarget` by statement id, `demoRefByTriple` by pipe-joined triple. -/
theorem c3_reference_encoding_equivalence_witness :
    matchesStatementReference demoVfA demoTarget = true
    ∧ matchesStatementReference demoRefByTriple demoTarget = true
    ∧ matchesStatementReference demoVfA demoTarget
      = matchesStatementReference demoRefByTriple demoTarget :=
  c3_reference_encoding_equivalence demoTarget demoVfA demoRefByTriple (by decide) (by decide)

/-! ## Support lemmas: outcome shapes of the consideration loop body -/

/-- A generated outcome of `finishSelection` with an explicit evidence id
selects exactly the matching pool member. -/
theorem finishSelection_generated_explicit (e : Bool) (id : String)
    (cons : AtomicConsideration) (pool base pool' sel base' : List FideIdStatement)
    (sum : ConsiderationSummary)
    (h : finishSelection e (some id) cons pool base
      = ConsiderationOutcome.generated pool' sel base' sum) :
    pool' = pool ∧ base' = base
    ∧ ∃ m, m ∈ pool ∧ m.statementFideId = id ∧ sel = [m] := by
  unfold finishSelection at h
  dsimp only at h
  cases hf : pool.find? (fun statement => statement.statementFideId == id) with
  | none => rw [hf] at h; exact absurd h (by simp)
  | some matched =>
    rw [hf] at h
    simp only [List.isEmpty_cons, Bool.false_eq_true, if_false,
      ConsiderationOutcome.generated.injEq] at h
    rcases h with ⟨hp, hs, hb, -⟩
    refine ⟨hp.symm, hb.symm, matched, List.mem_of_find?_eq_some hf, ?_, hs.symm⟩
    have := List.find?_some hf
    simpa using this

/-- A generated outcome of `finishSelection` without an explicit evidence
id selects the whole pool. -/
theorem finishSelection_generated_all (e : Bool) (cons : AtomicConsideration)
    (pool base pool' sel base' : List FideIdStatement) (sum : ConsiderationSummary)
    (h : finishSelection e none cons pool base
      = ConsiderationOutcome.generated pool' sel base' sum) :
    pool' = pool ∧ base' = base ∧ sel = pool := by
  unfold finishSelection at h
  dsimp only at h
  split at h
  · exact absurd h (by cases e <;> simp)
  · simp only [ConsiderationOutcome.generated.injEq] at h
    rcases h with ⟨hp, hs, hb, -⟩
    exact ⟨hp.symm, hb.symm, hs.symm⟩

/-- `finishSelection` never skips when the consideration was explicitly
requested. -/
theorem finishSelection_ne_skipped (eid : Option String) (cons : AtomicConsideration)
    (pool base : List FideIdStatement) (sum : ConsiderationSummary) :
    finishSelection true eid cons pool base ≠ ConsiderationOutcome.skipped sum := by
  unfold finishSelection
  cases eid with
  | none =>
    dsimp only
    split <;> simp
  | some id =>
    dsimp only
    cases hf : pool.find? (fun statement => statement.statementFideId == id) with
    | none => simp
    | some matched => simp

/-- Every generated outcome of the loop body comes from `finishSelection`
on some pool and base. -/
theorem processConsideration_generated_finish (e : Bool) (eid : Option String)
    (target : FideIdStatement) (ctx : List FideIdStatement)
    (cons : AtomicConsideration) (pool sel base : List FideIdStatement)
    (sum : ConsiderationSummary)
    (h : processConsideration e eid target ctx cons
      = ConsiderationOutcome.generated pool sel base sum) :
    ∃ pool0 base0, finishSelection e eid cons pool0 base0
      = ConsiderationOutcome.generated pool sel base sum := by
  cases cons with
  | citation_chain =>
    unfold processConsideration at h
    dsimp only at h
    cases hc : citationChainAnchorCandidates target ctx with
    | nil =>
      rw [hc] at h
      exact absurd h (by cases e <;> simp)
    | cons a rest =>
      rw [hc] at h
      dsimp only at h
      split at h
      · exact absurd h (by cases e <;> simp)
      · exact ⟨_, _, h⟩
  | explicit_contradiction =>
    unfold processConsideration at h
    dsimp only at h
    split at h
    · exact absurd h (by cases e <;> simp)
    · exact ⟨_, _, h⟩
  | name_alignment =>
    unfold processConsideration at h
    dsimp only at h
    split at h
    · exact absurd h (by cases e <;> simp)
    · exact ⟨_, _, h⟩
  | affiliation_overlap =>
    unfold processConsideration at h
    dsimp only at h
    split at h
    · exact absurd h (by cases e <;> simp)
    · exact ⟨_, _, h⟩
  | valid_from_timestamp =>
    unfold processConsideration at h
    dsimp only at h
    split at h
    · exact absurd h (by cases e <;> simp)
    · exact ⟨_, _, h⟩

/-- The loop body never records a skip when the consideration was
explicitly requested: every failure is fatal (non-zero exit). -/
theorem processConsideration_ne_skipped (eid : Option String)
    (target : FideIdStatement) (ctx : List FideIdStatement)
    (cons : AtomicConsideration) (sum : ConsiderationSummary) :
    processConsideration true eid target ctx cons
      ≠ ConsiderationOutcome.skipped sum := by
  intro h
  cases cons with
  | citation_chain =>
    unfold processConsideration at h
    dsimp only at h
    cases hc : citationChainAnchorCandidates target ctx with
    | nil => rw [hc] at h; exact absurd h (by simp)
    | cons a rest =>
      rw [hc] at h
      dsimp only at h
      split at h
      · exact absurd h (by simp)
      · exact finishSelection_ne_skipped eid _ _ _ sum h
  | explicit_contradiction =>
    unfold processConsideration at h
    dsimp only at h
    split at h
    · exact absurd h (by simp)
    · exact finishSelection_ne_skipped eid _ _ _ sum h
  | name_alignment =>
    unfold processConsideration at h
    dsimp only at h
    split at h
    · exact absurd h (by simp)
    · exact finishSelection_ne_skipped eid _ _ _ sum h
  | affiliation_overlap =>
    unfold processConsideration at h
    dsimp only at h
    split at h
    · exact absurd h (by simp)
    · exact finishSelection_ne_skipped eid _ _ _ sum h
  | valid_from_timestamp =>
    unfold processConsideration at h
    dsimp only at h
    split at h
    · exact absurd h (by simp)
    · exact finishSelection_ne_skipped eid _ _ _ sum h

/-! ## C4: citation_chain gating -/

/-- C4: when the selected citation_chain anchor has no report-backed
hadPrimarySource citation, the evidence pool is empty — even when
(non-report-backed) hadPrimarySource citations exist elsewhere in the
closure — so an explicitly requested citation_chain run fails fatally,
and the iterate-all run records a skip with the corresponding reason. -/
theorem c4_citation_chain_gating (explicitEvidenceStatementId : Option String)
    (target : FideIdStatement) (contextStatements : List FideIdStatement)
    (anchorValidity : FideIdStatement) (rest : List FideIdStatement)
    (hanchor : citationChainAnchorCandidates target contextStatements
      = anchorValidity :: rest)
    (hempty : (collectPrimarySourceLinksForStatement anchorValidity
        contextStatements).filter isReportBackedPrimarySource = [])
    (_hciting : ∃ s ∈ contextStatements,
      s.predicateRawIdentifier = PROV_HAD_PRIMARY_SOURCE_IRI) :
    processConsideration true explicitEvidenceStatementId target contextStatements
        AtomicConsideration.citation_chain
      = ConsiderationOutcome.fatal
          "No primary-source evidence statements found for the anchor validFrom statement."
    ∧ processConsideration false explicitEvidenceStatementId target contextStatements
        AtomicConsideration.citation_chain
      = ConsiderationOutcome.skipped ⟨AtomicConsideration.citation_chain, 0, 0,
          some "No primary-source evidence statements found for anchor validFrom statement."⟩ := by
  constructor <;>
  · unfold processConsideration
    rw [hanchor]
    simp [hempty]

/-- Witness for C4: the sole anchor `demoVfB` is cited only by a
non-report-backed primary source. -/
theorem c4_citation_chain_gating_witness :
    processConsideration true none demoTarget demoCtxC4
        AtomicConsideration.citation_chain
      = ConsiderationOutcome.fatal
          "No primary-source evidence statements found for the anchor validFrom statement."
    ∧ processConsideration false none demoTarget demoCtxC4
        AtomicConsideration.citation_chain
      = ConsiderationOutcome.skipped ⟨AtomicConsideration.citation_chain, 0, 0,
          some "No primary-source evidence statements found for anchor validFrom statement."⟩ :=
  c4_citation_chain_gating none demoTarget demoCtxC4 demoVfB [] (by decide) (by decide)
    ⟨demoCiteLoose, by decide, by decide⟩

/-! ## C5: explicit-evidence selection policy -/

/-- C5: for every consideration, a caller-named evidence statement id that
is not a member of the consideration's evidence pool can never produce
evidence units — in particular the full pool is never silently
substituted — and with the explicit-consideration flag the failure is
fatal (never a recorded skip); with no explicit evidence id, every pool
member becomes its own evidence unit. -/
theorem c5_explicit_evidence_policy (e : Bool) (target : FideIdStatement)
    (contextStatements : List FideIdStatement) (cons : AtomicConsideration)
    (id : String) :
    (∀ pool sel base sum,
      processConsideration e (some id) target contextStatements cons
        = ConsiderationOutcome.generated pool sel base sum →
      ∃ m, m ∈ pool ∧ m.statementFideId = id ∧ sel = [m])
    ∧ (∀ sum, processConsideration true (some id) target contextStatements cons
        ≠ ConsiderationOutcome.skipped sum)
    ∧ (∀ pool sel base sum,
      processConsideration e none target contextStatements cons
        = ConsiderationOutcome.generated pool sel base sum →
      sel = pool) := by
  refine ⟨?_, ?_, ?_⟩
  · intro pool sel base sum h
    rcases processConsideration_generated_finish e (some id) target contextStatements
      cons pool sel base sum h with ⟨pool0, base0, hfin⟩
    rcases finishSelection_generated_explicit e id cons pool0 base0 pool sel base sum hfin
      with ⟨hp, -, m, hm, hid, hsel⟩
    exact ⟨m, hp ▸ hm, hid, hsel⟩
  · intro sum
    exact processConsideration_ne_skipped (some id) target contextStatements cons sum
  · intro pool sel base sum h
    rcases processConsideration_generated_finish e none target contextStatements
      cons pool sel base sum h with ⟨pool0, base0, hfin⟩
    rcases finishSelection_generated_all e cons pool0 base0 pool sel base sum hfin
      with ⟨hp, -, hsel⟩
    rw [hsel, hp]

/-- Witness for C5: the name_alignment pool over `demoCtxC5` is
`[demoName]`; naming its id selects exactly it. -/
theorem c5_explicit_evidence_policy_witness :
    ∃ m, m ∈ [demoName] ∧ m.statementFideId = "n1" ∧ [demoName] = [m] :=
  (c5_explicit_evidence_policy true demoTarget demoCtxC5
      AtomicConsideration.name_alignment "n1").1
    [demoName] [demoName] []
    ⟨AtomicConsideration.name_alignment, 1, 1, none⟩ (by decide)

/-! ## C6: citation_chain anchor selection -/

/-- Counterexample for C6: the executed anchor selection in
`runPromptAtomic` sorts the closure validFrom candidates only by statement
id, not by parsed object date.  Here the candidate dated 2020-01-01 (id
"a2") is the earliest by object date and has a report-backed citation, yet
the code anchors on the 2025-01-01 candidate (smaller id "a1"), which has
no report-backed citation, so the pool comes out empty — the claim's
date-ranked anchor rule predicts a non-empty pool. -/
theorem c6_anchor_date_counterexample :
    citationChainAnchorCandidates demoTarget demoCtx = [demoVfB, demoVfA]
    ∧ demoVfB.objectRawIdentifier = "2025-01-01"
    ∧ demoVfA.objectRawIdentifier = "2020-01-01"
    ∧ (collectPrimarySourceLinksForStatement demoVfA demoCtx).filter
        isReportBackedPrimarySource = [demoCiteA]
    ∧ processConsideration false none demoTarget demoCtx
        AtomicConsideration.citation_chain
      = ConsiderationOutcome.skipped ⟨AtomicConsideration.citation_chain, 0, 0,
          some "No primary-source evidence statements found for anchor validFrom statement."⟩ := by
  refine ⟨by decide, by decide, by decide, by decide, by decide⟩

/-- C6 (amended): the citation_chain anchor is the closure validFrom
statement referencing the target with the lexicographically smallest
statement id — the parsed object date plays no role; if no candidate
exists, or that anchor has no report-backed citation, the pool is empty
(skip when iterating, fatal when explicit). -/
theorem c6_citation_chain_anchor_amended (target : FideIdStatement)
    (ctx : List FideIdStatement) :
    (citationChainAnchorCandidates target ctx = [] →
      processConsideration false none target ctx AtomicConsideration.citation_chain
        = ConsiderationOutcome.skipped ⟨AtomicConsideration.citation_chain, 0, 0,
            some "No anchor validFrom statement found."⟩
      ∧ processConsideration true none target ctx AtomicConsideration.citation_chain
        = ConsiderationOutcome.fatal
            "No anchor validFrom statement found for target owl:sameAs statement.")
    ∧ ∀ a rest, citationChainAnchorCandidates target ctx = a :: rest →
      (a ∈ ctx ∧ a.predicateRawIdentifier = SCHEMA_VALID_FROM_IRI
        ∧ matchesStatementReference a target = true)
      ∧ (∀ c ∈ ctx, c.predicateRawIdentifier = SCHEMA_VALID_FROM_IRI →
          matchesStatementReference c target = true →
          a.statementFideId.data ≤ c.statementFideId.data)
      ∧ ((collectPrimarySourceLinksForStatement a ctx).filter
            isReportBackedPrimarySource = [] →
          processConsideration false none target ctx AtomicConsideration.citation_chain
            = ConsiderationOutcome.skipped ⟨AtomicConsideration.citation_chain, 0, 0,
                some "No primary-source evidence statements found for anchor validFrom statement."⟩)
      ∧ ∀ pool sel base sum,
          processConsideration false none target ctx AtomicConsideration.citation_chain
            = ConsiderationOutcome.generated pool sel base sum →
          pool = (collectPrimarySourceLinksForStatement a ctx).filter
              isReportBackedPrimarySource
          ∧ base = [a] := by
  constructor
  · intro hnil
    constructor <;>
    · unfold processConsideration
      rw [hnil]
      simp
  · intro a rest hcons
    have hmem : a ∈ ctx.filter (fun statement =>
        statement.predicateRawIdentifier == SCHEMA_VALID_FROM_IRI
        && matchesStatementReference statement target) := by
      have : a ∈ citationChainAnchorCandidates target ctx := by
        rw [hcons]; exact List.mem_cons_self a rest
      rw [citationChainAnchorCandidates, sortByStatementFideId, mem_stableSortBy] at this
      exact this
    have hprops := List.mem_filter.mp hmem
    have hpred : a.predicateRawIdentifier = SCHEMA_VALID_FROM_IRI
        ∧ matchesStatementReference a target = true := by
      have := hprops.2
      simp only [Bool.and_eq_true, beq_iff_eq] at this
      exact this
    refine ⟨⟨hprops.1, hpred.1, hpred.2⟩, ?_, ?_, ?_⟩
    · intro c hc hcpred hcmatch
      have hcfilter : c ∈ ctx.filter (fun statement =>
          statement.predicateRawIdentifier == SCHEMA_VALID_FROM_IRI
          && matchesStatementReference statement target) := by
        rw [List.mem_filter]
        refine ⟨hc, ?_⟩
        simp [hcpred, hcmatch]
      have hle := stableSortBy_head_le
        (fun x y => decide (localeCmp x.statementFideId y.statementFideId ≤ 0))
        (fun x y z hx hy => stmtIdLe_trans x y z hx hy)
        (fun x y => stmtIdLe_total x y)
        (by rw [← sortByStatementFideId, ← citationChainAnchorCandidates]; exact hcons)
        c hcfilter
      rw [decide_eq_true_iff, localeCmp_le_zero_iff] at hle
      exact hle
    · intro hempty
      unfold processConsideration
      rw [hcons]
      simp [hempty]
    · intro pool sel base sum h
      unfold processConsideration at h
      dsimp only at h
      rw [hcons] at h
      dsimp only at h
      split at h
      · exact absurd h (by simp)
      · rcases finishSelection_generated_all false AtomicConsideration.citation_chain
          _ _ pool sel base sum h with ⟨hp, hb, -⟩
        exact ⟨hp, hb⟩

/-- Witness for C6 (amended): over `demoCtx` the anchor is `demoVfB`
(smallest id "a1"), which out-ranks `demoVfA` despite the later date, and
its empty report-backed pool yields the skip. -/
theorem c6_citation_chain_anchor_amended_witness :
    (demoVfB ∈ demoCtx ∧ demoVfB.predicateRawIdentifier = SCHEMA_VALID_FROM_IRI
      ∧ matchesStatementReference demoVfB demoTarget = true)
    ∧ demoVfB.statementFideId.data ≤ demoVfA.statementFideId.data
    ∧ processConsideration false none demoTarget demoCtx
        AtomicConsideration.citation_chain
      = ConsiderationOutcome.skipped ⟨AtomicConsideration.citation_chain, 0, 0,
          some "No primary-source evidence statements found for anchor validFrom statement."⟩ := by
  have h := (c6_citation_chain_anchor_amended demoTarget demoCtx).2 demoVfB [demoVfA]
    (by decide)
  exact ⟨h.1, h.2.1 demoVfA (by decide) (by decide) (by decide), h.2.2.1 (by decide)⟩

/-! ## Support lemma: the resolver candidate scan succeeds exactly on
re-deriving rows -/

/-- The candidate scan produces a candidate for a row exactly when the row
re-derives to the claim-id set. -/
theorem validFromCandidateOfRow_ne_none_iff
    (cf : String → String → String → Option String) (idset : List String)
    (row : ScenarioStatement) :
    (∃ c, validFromCandidateOfRow cf idset row = some c)
      ↔ reDerivesToClaimSet cf idset row := by
  unfold validFromCandidateOfRow reDerivesToClaimSet
  by_cases h1 : row.predicate_raw_identifier = "https://schema.org/validFrom"
  case neg =>
    rw [if_pos (by simpa [bne_iff_ne] using h1)]
    simp [h1]
  case pos =>
    rw [if_neg (by simp [bne_iff_ne, h1])]
    by_cases h2 : row.subject_type = "Statement"
    case neg =>
      rw [if_pos (by simpa [bne_iff_ne] using h2)]
      simp [h2]
    case pos =>
      rw [if_neg (by simp [bne_iff_ne, h2])]
      simp only [h1, h2, true_and]
      cases hp : jsSplitPipe row.subject_raw_identifier with
      | nil => simp
      | cons a t0 =>
        cases t0 with
        | nil => simp
        | cons b t1 =>
          cases t1 with
          | nil => simp
          | cons c t2 =>
            cases t2 with
            | cons d t3 => simp
            | nil =>
              rw [if_neg (by simp)]
              by_cases hall : ([a, b, c].all fun part =>
                  startsWithStr "did:fide:0x" part) = true
              case neg =>
                have hallf : ([a, b, c].all fun part =>
                    startsWithStr "did:fide:0x" part) = false := by
                  revert hall
                  cases ([a, b, c].all fun part => startsWithStr "did:fide:0x" part) <;>
                    simp
                rw [if_pos (by rw [hallf]; rfl)]
                apply iff_of_false
                · rintro ⟨c', hc'⟩; cases hc'
                · rintro ⟨p0, p1, p2, tid, heq, hp0, hp1, hp2, -, -⟩
                  obtain ⟨rfl, rfl, rfl⟩ : a = p0 ∧ b = p1 ∧ c = p2 := by simpa using heq
                  have hallt : ([a, b, c].all fun part =>
                      startsWithStr "did:fide:0x" part) = true := by
                    simp [hp0, hp1, hp2]
                  rw [hallf] at hallt
                  cases hallt
              case pos =>
                rw [if_neg (by rw [hall]; simp)]
                dsimp only
                cases hcalc : cf a b c with
                | none =>
                  apply iff_of_false
                  · rintro ⟨c', hc'⟩; cases hc'
                  · rintro ⟨p0, p1, p2, tid, heq, -, -, -, hcalc', -⟩
                    obtain ⟨rfl, rfl, rfl⟩ : a = p0 ∧ b = p1 ∧ c = p2 := by simpa using heq
                    rw [hcalc] at hcalc'
                    cases hcalc'
                | some tid =>
                  dsimp only
                  simp only [List.all_cons, List.all_nil, Bool.and_eq_true,
                    and_true] at hall
                  by_cases hmem : idset.contains tid = true
                  · rw [if_pos hmem]
                    apply iff_of_true
                    · exact ⟨_, rfl⟩
                    · exact ⟨a, b, c, tid, rfl, hall.1, hall.2.1, hall.2.2, hcalc,
                        List.elem_iff.mp hmem⟩
                  · rw [if_neg hmem]
                    apply iff_of_false
                    · rintro ⟨c', hc'⟩; cases hc'
                    · rintro ⟨p0, p1, p2, tid', heq, -, -, -, hcalc', hmem'⟩
                      obtain ⟨rfl, rfl, rfl⟩ : a = p0 ∧ b = p1 ∧ c = p2 := by
                        simpa using heq
                      rw [hcalc] at hcalc'
                      injection hcalc' with htid
                      subst htid
                      exact hmem (List.elem_iff.mpr hmem')

/-! ## C7: resolver totality -/

/-- C7: the resolver is a total function of its inputs (the embedding is a
plain function, never an error), and it returns "unresolved" (`none`)
exactly when no validFrom statement-about-a-statement re-derives, through
the statement-identity collaborator applied to its three pipe-separated
subject components, to a member of the focal same-as claim-id set. -/
theorem c7_resolver_totality
    (calcStatementFideId : String → String → String → Option String)
    (calcFideId : String → String → String → String) (config : FixtureConfig)
    (statements : List ScenarioStatement) (focalIdentifier : String) :
    findPrimaryFideId calcStatementFideId calcFideId config statements focalIdentifier
        = none
      ↔ ¬ ∃ row ∈ statements, reDerivesToClaimSet calcStatementFideId
          (sameAsStatementIdSetOf config statements focalIdentifier) row := by
  unfold findPrimaryFideId
  dsimp only
  cases hs : stableSortBy candidateLe
      (validFromCandidatesOf calcStatementFideId config statements focalIdentifier) with
  | nil =>
    dsimp only
    constructor
    · intro _
      have hnil := (stableSortBy_eq_nil_iff candidateLe _).mp hs
      rw [validFromCandidatesOf, List.filterMap_eq_nil_iff] at hnil
      rintro ⟨row, hrow, hred⟩
      rcases (validFromCandidateOfRow_ne_none_iff calcStatementFideId _ row).mpr hred
        with ⟨c, hc⟩
      rw [hnil row hrow] at hc
      cases hc
    · intro _
      rfl
  | cons w rest =>
    dsimp only
    constructor
    · intro h; cases h
    · intro hno
      exfalso
      have hw : w ∈ stableSortBy candidateLe
          (validFromCandidatesOf calcStatementFideId config statements focalIdentifier) := by
        rw [hs]; exact List.mem_cons_self w rest
      rw [mem_stableSortBy, validFromCandidatesOf] at hw
      rcases List.mem_filterMap.mp hw with ⟨row, hrow, hf⟩
      exact hno ⟨row, hrow,
        (validFromCandidateOfRow_ne_none_iff calcStatementFideId _ row).mp ⟨w, hf⟩⟩

/-- Witness for C7: on an empty statement list no row re-derives, and the
resolver returns "unresolved". -/
theorem c7_resolver_totality_witness :
    findPrimaryFideId demoCalc demoCalcFideId demoConfig [] "alice" = none :=
  (c7_resolver_totality demoCalc demoCalcFideId demoConfig [] "alice").mpr (by simp)

/-! ## Support lemmas: the resolver winner -/

/-- Whenever the resolver returns a result, its anchor fields come from a
surviving candidate whose ranking key is minimal over all surviving
candidates. -/
theorem findPrimaryFideId_winner
    (cf : String → String → String → Option String)
    (calcFideId : String → String → String → String) (config : FixtureConfig)
    (statements : List ScenarioStatement) (focalIdentifier : String)
    (r : PrimaryFideIdResult)
    (h : findPrimaryFideId cf calcFideId config statements focalIdentifier = some r) :
    ∃ w ∈ validFromCandidatesOf cf config statements focalIdentifier,
      r.anchorValidFromStatementFideId = w.statementFideId
      ∧ r.anchorValidFromFirstSeenAt = w.firstSeenAt
      ∧ r.anchorSameAsStatementRawIdentifier = w.subjectRawIdentifier
      ∧ ∀ c ∈ validFromCandidatesOf cf config statements focalIdentifier,
          candidateKey w ≤ candidateKey c := by
  unfold findPrimaryFideId at h
  dsimp only at h
  cases hs : stableSortBy candidateLe
      (validFromCandidatesOf cf config statements focalIdentifier) with
  | nil => rw [hs] at h; cases h
  | cons w rest =>
    rw [hs] at h
    dsimp only at h
    simp only [Option.some.injEq] at h
    subst h
    have hwmem : w ∈ validFromCandidatesOf cf config statements focalIdentifier := by
      have : w ∈ stableSortBy candidateLe
          (validFromCandidatesOf cf config statements focalIdentifier) := by
        rw [hs]; exact List.mem_cons_self w rest
      rwa [mem_stableSortBy] at this
    refine ⟨w, hwmem, rfl, rfl, rfl, ?_⟩
    intro c hc
    have := stableSortBy_head_le candidateLe candidateLe_trans candidateLe_total hs c hc
    rwa [candidateLe_iff] at this

/-- Whenever at least one candidate survives, the resolver returns a
result. -/
theorem findPrimaryFideId_isSome_of_ne_nil
    (cf : String → String → String → Option String)
    (calcFideId : String → String → String → String) (config : FixtureConfig)
    (statements : List ScenarioStatement) (focalIdentifier : String)
    (h : validFromCandidatesOf cf config statements focalIdentifier ≠ []) :
    ∃ r, findPrimaryFideId cf calcFideId config statements focalIdentifier = some r := by
  unfold findPrimaryFideId
  dsimp only
  cases hs : stableSortBy candidateLe
      (validFromCandidatesOf cf config statements focalIdentifier) with
  | nil => exact absurd ((stableSortBy_eq_nil_iff candidateLe _).mp hs) h
  | cons w rest => exact ⟨_, rfl⟩

/-! ## C2: candidate ranking -/

/-- Counterexample for C2: two surviving candidates with equal first-seen
timestamps, one with no recorded statement id and one with the id "~a".
The claim says a missing id sorts last, so the "~a" candidate should win;
the code replaces a missing id with the sentinel "~", which sorts before
"~a", so the missing-id candidate wins (the returned anchor statement id
is `none`). -/
theorem c2_missing_id_counterexample :
    validFromCandidatesOf demoCalc demoConfig demoStatementsC2 "alice"
      = [⟨none, some 100, demoTripleRaw⟩, ⟨some "~a", some 100, demoTripleRaw⟩]
    ∧ findPrimaryFideId demoCalc demoCalcFideId demoConfig demoStatementsC2 "alice"
      = some ⟨"did:fide:0xprimary", demoTripleRaw, none, some 100⟩ :=
  ⟨by decide, by decide⟩

/-- C2 (amended): the resolver ranks the surviving candidates by the
lexicographic key (sentinel-filled first-seen timestamp, sentinel-filled
statement id, subject raw value), where a missing timestamp is replaced by
MAX_SAFE_INTEGER and a missing id by the string "~" — so missing values
sort last among the did:fide identifiers actually produced, but not past
the sentinels themselves.  The returned anchor is a surviving candidate
whose key is minimal. -/
theorem c2_ranking_amended
    (calcStatementFideId : String → String → String → Option String)
    (calcFideId : String → String → String → String) (config : FixtureConfig)
    (statements : List ScenarioStatement) (focalIdentifier : String)
    (r : PrimaryFideIdResult)
    (h : findPrimaryFideId calcStatementFideId calcFideId config statements
      focalIdentifier = some r) :
    ∃ w ∈ validFromCandidatesOf calcStatementFideId config statements focalIdentifier,
      r.anchorValidFromStatementFideId = w.statementFideId
      ∧ r.anchorValidFromFirstSeenAt = w.firstSeenAt
      ∧ r.anchorSameAsStatementRawIdentifier = w.subjectRawIdentifier
      ∧ ∀ c ∈ validFromCandidatesOf calcStatementFideId config statements focalIdentifier,
          candidateKey w ≤ candidateKey c :=
  findPrimaryFideId_winner calcStatementFideId calcFideId config statements
    focalIdentifier r h

/-- Witness for C2 (amended): the winning candidate over
`demoStatementsC2` minimises the ranking key. -/
theorem c2_ranking_amended_witness :
    ∃ w ∈ validFromCandidatesOf demoCalc demoConfig demoStatementsC2 "alice",
      (⟨"did:fide:0xprimary", demoTripleRaw, none,
        some 100⟩ : PrimaryFideIdResult).anchorValidFromStatementFideId
        = w.statementFideId
      ∧ (⟨"did:fide:0xprimary", demoTripleRaw, none,
          some 100⟩ : PrimaryFideIdResult).anchorValidFromFirstSeenAt = w.firstSeenAt
      ∧ (⟨"did:fide:0xprimary", demoTripleRaw, none,
          some 100⟩ : PrimaryFideIdResult).anchorSameAsStatementRawIdentifier
        = w.subjectRawIdentifier
      ∧ ∀ c ∈ validFromCandidatesOf demoCalc demoConfig demoStatementsC2 "alice",
          candidateKey w ≤ candidateKey c :=
  c2_ranking_amended demoCalc demoCalcFideId demoConfig demoStatementsC2 "alice"
    ⟨"did:fide:0xprimary", demoTripleRaw, none, some 100⟩ (by decide)

/-! ## C8: the two-date example -/

/-- Counterexample for C8: two anchor candidates distinguished only by
their validFrom date literals (2021-01-01 vs 2022-06-01) and their
necessarily distinct statement ids, with equal first-seen timestamps.
The resolver never reads the date literal: it tie-breaks on the statement
id, and here the 2022-06-01 statement has the smaller id "vf-1", so the
resolver anchors on the 2022-06-01 statement — not the 2021-01-01 one the
claim predicts. -/
theorem c8_date_example_counterexample :
    validFromCandidatesOf demoCalc demoConfig demoStatementsC8 "alice"
      = [⟨some "vf-1", some 100, demoTripleRaw⟩, ⟨some "vf-2", some 100, demoTripleRaw⟩]
    ∧ rowVf2022.statement_fide_id = some "vf-1"
    ∧ rowVf2022.object_raw_identifier = "2022-06-01"
    ∧ rowVf2021.statement_fide_id = some "vf-2"
    ∧ rowVf2021.object_raw_identifier = "2021-01-01"
    ∧ rowVf2021.first_created_at = rowVf2022.first_created_at
    ∧ findPrimaryFideId demoCalc demoCalcFideId demoConfig demoStatementsC8 "alice"
      = some ⟨"did:fide:0xprimary", demoTripleRaw, some "vf-1", some 100⟩ :=
  ⟨by decide, by decide, by decide, by decide, by decide, by decide, by decide⟩

/-- C8 (amended): with exactly two surviving candidates of equal
first-seen timestamp and distinct recorded statement ids, the resolver
selects the candidate with the lexicographically smaller statement id —
in whichever order the two candidates were scanned from the statement
list, and regardless of the validFrom date literals; so the 2021-01-01
statement is selected only when it happens to hold the smaller id. -/
theorem c8_tie_by_id_amended
    (calcStatementFideId : String → String → String → Option String)
    (calcFideId : String → String → String → String) (config : FixtureConfig)
    (statements : List ScenarioStatement) (focalIdentifier : String)
    (cand1 cand2 : ValidFromCandidate) (i1 i2 : String)
    (hc : validFromCandidatesOf calcStatementFideId config statements focalIdentifier
        = [cand1, cand2]
      ∨ validFromCandidatesOf calcStatementFideId config statements focalIdentifier
        = [cand2, cand1])
    (ht : cand1.firstSeenAt = cand2.firstSeenAt)
    (h1 : cand1.statementFideId = some i1) (h2 : cand2.statementFideId = some i2)
    (hlt : i1.data < i2.data) :
    ∃ r, findPrimaryFideId calcStatementFideId calcFideId config statements
        focalIdentifier = some r
      ∧ r.anchorValidFromStatementFideId = some i1 := by
  have hnonnil : validFromCandidatesOf calcStatementFideId config statements
      focalIdentifier ≠ [] := by
    rcases hc with hc | hc <;> simp [hc]
  obtain ⟨r, hr⟩ := findPrimaryFideId_isSome_of_ne_nil calcStatementFideId calcFideId
    config statements focalIdentifier hnonnil
  obtain ⟨w, hwmem, hid, -, -, hmin⟩ := findPrimaryFideId_winner calcStatementFideId
    calcFideId config statements focalIdentifier r hr
  have hcand1mem : cand1 ∈ validFromCandidatesOf calcStatementFideId config statements
      focalIdentifier := by
    rcases hc with hc | hc <;> simp [hc]
  have hw12 : w = cand1 ∨ w = cand2 := by
    rcases hc with hc | hc <;>
    · rw [hc] at hwmem
      simp only [List.mem_cons, List.not_mem_nil, or_false] at hwmem
      tauto
  rcases hw12 with rfl | rfl
  · exact ⟨r, hr, hid.trans h1⟩
  · exfalso
    have hkey := hmin cand1 hcand1mem
    have hle : candidateLe w cand1 = true := (candidateLe_iff w cand1).mpr hkey
    have hne : i2 ≠ i1 := by
      intro he
      rw [he] at hlt
      exact lt_irrefl _ hlt
    have hcmp : candidateCmp w cand1 = localeCmp i2 i1 := by
      unfold candidateCmp
      rw [ht, h1, h2]
      simp [hne]
    unfold candidateLe at hle
    rw [decide_eq_true_iff, hcmp, localeCmp_le_zero_iff] at hle
    exact absurd hlt (not_lt.mpr hle)

/-- Witness for C8 (amended), on the swapped-order scenario: in
`demoStatementsC8Swapped` the candidate scan yields the "vf-2" (2021)
candidate first, and the sort still selects "vf-1" (the 2022-06-01
statement, smaller id) as the anchor. -/
theorem c8_tie_by_id_amended_witness :
    ∃ r, findPrimaryFideId demoCalc demoCalcFideId demoConfig demoStatementsC8Swapped
        "alice" = some r
      ∧ r.anchorValidFromStatementFideId = some "vf-1" :=
  c8_tie_by_id_amended demoCalc demoCalcFideId demoConfig demoStatementsC8Swapped
    "alice" ⟨some "vf-1", some 100, demoTripleRaw⟩
    ⟨some "vf-2", some 100, demoTripleRaw⟩ "vf-1" "vf-2"
    (Or.inr (by decide)) (by decide) (by decide) (by decide) (by decide)

/-! ## C10: malformed subject encodings are skipped -/

/-- A malformed validFrom statement-about-a-statement never yields a
candidate, whatever the claim-id set. -/
theorem validFromCandidateOfRow_eq_none_of_malformed
    (cf : String → String → String → Option String) (idset : List String)
    (row : ScenarioStatement)
    (hmal : malformedValidFromAboutStatement cf row) :
    validFromCandidateOfRow cf idset row = none := by
  by_contra hne
  rcases Option.ne_none_iff_exists'.mp hne with ⟨c, hc⟩
  have hred := (validFromCandidateOfRow_ne_none_iff cf idset row).mp ⟨c, hc⟩
  rcases hred with ⟨-, -, p0, p1, p2, tid, hsplit, hp0, hp1, hp2, hcalc, -⟩
  rcases hmal.2.2 with hlen | ⟨part, hpart, hfalse⟩ | hthrow
  · rw [hsplit] at hlen
    simp at hlen
  · rw [hsplit] at hpart
    have : part = p0 ∨ part = p1 ∨ part = p2 := by simpa using hpart
    rcases this with rfl | rfl | rfl
    · rw [hp0] at hfalse; cases hfalse
    · rw [hp1] at hfalse; cases hfalse
    · rw [hp2] at hfalse; cases hfalse
  · rw [hthrow p0 p1 p2 hsplit] at hcalc
    cases hcalc

/-- C10: the resolver silently skips any validFrom
statement-about-a-statement whose subject raw value does not split into
exactly three did:fide:0x components, or whose re-derivation throws: such
a row never becomes an anchor candidate, and inserting it anywhere in the
statement list leaves the resolver's outcome unchanged.  (Totality —
"skips rather than fails" — is inherent: the embedding is a plain
function.) -/
theorem c10_malformed_encoding_harmless
    (calcStatementFideId : String → String → String → Option String)
    (calcFideId : String → String → String → String) (config : FixtureConfig)
    (focalIdentifier : String) (row : ScenarioStatement)
    (l1 l2 : List ScenarioStatement)
    (hmal : malformedValidFromAboutStatement calcStatementFideId row) :
    validFromCandidateOfRow calcStatementFideId
        (sameAsStatementIdSetOf config (l1 ++ row :: l2) focalIdentifier) row = none
    ∧ findPrimaryFideId calcStatementFideId calcFideId config (l1 ++ row :: l2)
        focalIdentifier
      = findPrimaryFideId calcStatementFideId calcFideId config (l1 ++ l2)
        focalIdentifier := by
  have hb : (row.predicate_raw_identifier
      == "https://www.w3.org/2002/07/owl#sameAs") = false := by
    rw [hmal.1]
    rfl
  have hsame : sameAsStatementIdSetOf config (l1 ++ row :: l2) focalIdentifier
      = sameAsStatementIdSetOf config (l1 ++ l2) focalIdentifier := by
    unfold sameAsStatementIdSetOf owlSameAsStatementsOf
    rw [List.filter_append, List.filter_append, List.filter_cons]
    simp [hb]
  have hcand : validFromCandidatesOf calcStatementFideId config (l1 ++ row :: l2)
      focalIdentifier
      = validFromCandidatesOf calcStatementFideId config (l1 ++ l2) focalIdentifier := by
    unfold validFromCandidatesOf
    rw [hsame, List.filterMap_append, List.filterMap_append]
    congr 1
    rw [List.filterMap_cons,
      validFromCandidateOfRow_eq_none_of_malformed calcStatementFideId _ row hmal]
  constructor
  · exact validFromCandidateOfRow_eq_none_of_malformed calcStatementFideId _ row hmal
  · unfold findPrimaryFideId
    dsimp only
    rw [hcand]

/-- Witness for C10: inserting the malformed row between the well-formed
fixtures changes nothing. -/
theorem c10_malformed_encoding_harmless_witness :
    validFromCandidateOfRow demoCalc
        (sameAsStatementIdSetOf demoConfig
          ([rowSameAs, rowVf2022] ++ rowVfMalformed :: [rowVf2021]) "alice")
        rowVfMalformed = none
    ∧ findPrimaryFideId demoCalc demoCalcFideId demoConfig
        ([rowSameAs, rowVf2022] ++ rowVfMalformed :: [rowVf2021]) "alice"
      = findPrimaryFideId demoCalc demoCalcFideId demoConfig
        ([rowSameAs, rowVf2022] ++ [rowVf2021]) "alice" :=
  c10_malformed_encoding_harmless demoCalc demoCalcFideId demoConfig "alice"
    rowVfMalformed [rowSameAs, rowVf2022] [rowVf2021]
    ⟨by decide, by decide, Or.inl (by decide)⟩

/-! ## Support lemmas: the vocabulary merge as a flat operation sequence -/

/-- Processing one node is the fold of its `index.set` operations. -/
theorem applyVocabNode_eq_ops (index : List (String × PromptDefinitionEntry))
    (node : Json) :
    applyVocabNode index node
      = (vocabOpsOfNode node).foldl (fun m kv => jsMapSet m kv.1 kv.2) index := by
  cases node with
  | obj fields =>
    unfold applyVocabNode vocabOpsOfNode
    dsimp only
    cases hid : recordGet fields "@id" with
    | str id =>
      by_cases h : id = ""
      · simp [h]
      · simp [h]
    | null => rfl
    | bool b => rfl
    | num n => rfl
    | arr items => rfl
    | obj fields2 => rfl
  | null => rfl
  | bool b => rfl
  | num n => rfl
  | str s => rfl
  | arr items => rfl

/-- Processing a node list is the fold of the flattened operations. -/
theorem foldl_applyVocabNode_eq_ops (nodes : List Json) :
    ∀ index, nodes.foldl applyVocabNode index
      = (nodes.flatMap vocabOpsOfNode).foldl (fun m kv => jsMapSet m kv.1 kv.2) index := by
  induction nodes with
  | nil => intro index; rfl
  | cons n ns ih =>
    intro index
    rw [List.foldl_cons, ih, List.flatMap_cons, List.foldl_append,
      applyVocabNode_eq_ops]

/-- The full vocabulary merge is the fold of the flat operation
sequence. -/
theorem loadVocabularyIndex_eq_ops (files : List (Option Json)) :
    loadVocabularyIndex files
      = (vocabOps files).foldl (fun m kv => jsMapSet m kv.1 kv.2) [] := by
  suffices h : ∀ init : List (String × PromptDefinitionEntry),
      files.foldl (fun index file =>
        match file with
        | none => index
        | some parsed => (vocabGraphOf parsed).foldl applyVocabNode index) init
        = (vocabOps files).foldl (fun m kv => jsMapSet m kv.1 kv.2) init by
    exact h []
  induction files with
  | nil => intro init; rfl
  | cons f fs ih =>
    intro init
    rw [List.foldl_cons, ih]
    unfold vocabOps
    rw [List.flatMap_cons, List.foldl_append]
    congr 1
    cases f with
    | none => rfl
    | some parsed => exact foldl_applyVocabNode_eq_ops (vocabGraphOf parsed) init

/-- Folding operations over keys other than `k` does not change the value
read at `k`. -/
theorem jsMapGet_foldl_set_of_not_mem {α : Type} (ops : List (String × α)) (k : String)
    (hk : k ∉ ops.map Prod.fst) :
    ∀ m, jsMapGet (ops.foldl (fun m kv => jsMapSet m kv.1 kv.2) m) k = jsMapGet m k := by
  induction ops with
  | nil => intro m; rfl
  | cons kv rest ih =>
    intro m
    have h1 : k ≠ kv.1 := by
      intro h
      exact hk (by simp [h])
    have h2 : k ∉ rest.map Prod.fst := fun h => hk (by simp [h])
    rw [List.foldl_cons, ih h2, jsMapGet_set_ne _ _ _ _ h1]

/-- When a key is set somewhere in an operation sequence, the value read
after folding the sequence does not depend on the initial map. -/
theorem jsMapGet_foldl_set_of_mem_keys {α : Type} (ops : List (String × α)) (k : String)
    (hk : k ∈ ops.map Prod.fst) :
    ∀ m0 m1, jsMapGet (ops.foldl (fun m kv => jsMapSet m kv.1 kv.2) m0) k
      = jsMapGet (ops.foldl (fun m kv => jsMapSet m kv.1 kv.2) m1) k := by
  induction ops with
  | nil => simp at hk
  | cons kv rest ih =>
    intro m0 m1
    by_cases hr : k ∈ rest.map Prod.fst
    · exact ih hr _ _
    · have hkk : k = kv.1 := by
        by_contra hne
        rw [List.map_cons] at hk
        rcases List.mem_cons.mp hk with h | h
        · exact hne h
        · exact hr h
      subst hkk
      rw [List.foldl_cons, List.foldl_cons,
        jsMapGet_foldl_set_of_not_mem rest _ hr,
        jsMapGet_foldl_set_of_not_mem rest _ hr,
        jsMapGet_set_self, jsMapGet_set_self]

/-! ## C9: snapshot precedence in the vocabulary merge -/

/-- Counterexample for C9: the same term id occurs in two snapshots with
labels "A" (first file) and "B" (second file).  `index.set` overwrites, so
the merged index keeps the SECOND snapshot's definition — the claim says
the first snapshot wins. -/
theorem c9_first_snapshot_counterexample :
    (jsMapGet (loadVocabularyIndex [some vocabFileA, some vocabFileB]) "term:alpha").map
        (fun entry => entry.label) = some (some "B")
    ∧ (jsMapGet (loadVocabularyIndex [some vocabFileA]) "term:alpha").map
        (fun entry => entry.label) = some (some "A")
    ∧ "term:alpha" ∈ (vocabOps [some vocabFileA]).map Prod.fst
    ∧ "term:alpha" ∈ (vocabOps [some vocabFileB]).map Prod.fst :=
  ⟨by decide, by decide, by decide, by decide⟩

/-- C9 (amended): the vocabulary merge gives precedence to the LAST
snapshot in load order: on every term key that a suffix of the file list
defines, the merged index agrees with the merge of that suffix alone — in
particular a term id occurring in several snapshots keeps the definition
from the last one. -/
theorem c9_last_snapshot_wins_amended (fs1 fs2 : List (Option Json)) (k : String)
    (hk : k ∈ (vocabOps fs2).map Prod.fst) :
    jsMapGet (loadVocabularyIndex (fs1 ++ fs2)) k
      = jsMapGet (loadVocabularyIndex fs2) k := by
  rw [loadVocabularyIndex_eq_ops, loadVocabularyIndex_eq_ops]
  have hsplit : vocabOps (fs1 ++ fs2) = vocabOps fs1 ++ vocabOps fs2 :=
    List.flatMap_append fs1 fs2 _
  rw [hsplit, List.foldl_append]
  exact jsMapGet_foldl_set_of_mem_keys (vocabOps fs2) k hk _ _

/-- Witness for C9 (amended): merging the two demo snapshots agrees with
loading the second snapshot alone on the duplicated term. -/
theorem c9_last_snapshot_wins_amended_witness :
    jsMapGet (loadVocabularyIndex ([some vocabFileA] ++ [some vocabFileB])) "term:alpha"
      = jsMapGet (loadVocabularyIndex [some vocabFileB]) "term:alpha" :=
  c9_last_snapshot_wins_amended [some vocabFileA] [some vocabFileB] "term:alpha"
    (by decide)

end FideCli
